import Mathlib

/-!
Verification of the EchoCopi memory engine (`src/echo_memory.py`).

The development shallowly embeds the engine's core routines:

* `_hash_entry` — SHA-256 over the canonical (`json.dumps(..., sort_keys=True)`)
  serialization of an event record minus its `checksum` field;
* `verify_integrity` / `verify_session` — checksum verification;
* `log_thought` and the semantic wrappers (`recognize_pattern`,
  `learn_preference`, `understand_system`, `milestone`, `_log_session_start`)
  acting on the evolution aggregate;
* `resume_on_startup` — the startup resume reconciler over checkpoint markers.

Python dicts (string-keyed, insertion-ordered) are modelled as association
lists; JSON values as the inductive `Json` (numbers are modelled as integers —
floats do not occur in the records the engine builds).  File-system reads and
the wall clock are passed in explicitly as arguments.  SHA-256 is implemented
executably on `Nat` and checked below against the FIPS 180-4 "abc" test
vector; the canonical serializer mirrors CPython's `json.dumps` with
`sort_keys=True` (default separators, `ensure_ascii=True` escaping).
-/

set_option maxRecDepth 40000

/-! ## SHA-256 (executable, `Nat`-based) -/

/-- Truncation to a 32-bit word. -/
def w32 (x : Nat) : Nat := x % 4294967296

/-- Right rotation of a 32-bit word. -/
def rotr32 (n x : Nat) : Nat := (x / 2 ^ n) + (x % 2 ^ n) * 2 ^ (32 - n)

/-- Logical right shift of a 32-bit word. -/
def shr32 (n x : Nat) : Nat := x / 2 ^ n

/-- Bitwise complement of a 32-bit word. -/
def not32 (x : Nat) : Nat := 4294967295 - x

/-- SHA-256 round constants (FIPS 180-4 section 4.2.2, in decimal). -/
def sha256K : List Nat :=
  [1116352408, 1899447441, 3049323471, 3921009573, 961987163,
   1508970993, 2453635748, 2870763221, 3624381080, 310598401,
   607225278, 1426881987, 1925078388, 2162078206, 2614888103,
   3248222580, 3835390401, 4022224774, 264347078, 604807628,
   770255983, 1249150122, 1555081692, 1996064986, 2554220882,
   2821834349, 2952996808, 3210313671, 3336571891, 3584528711,
   113926993, 338241895, 666307205, 773529912, 1294757372,
   1396182291, 1695183700, 1986661051, 2177026350, 2456956037,
   2730485921, 2820302411, 3259730800, 3345764771, 3516065817,
   3600352804, 4094571909, 275423344, 430227734, 506948616,
   659060556, 883997877, 958139571, 1322822218, 1537002063,
   1747873779, 1955562222, 2024104815, 2227730452, 2361852424,
   2428436474, 2756734187, 3204031479, 3329325298]

/-- SHA-256 initial hash state (FIPS 180-4 section 5.3.3, in decimal). -/
def sha256H0 : List Nat :=
  [1779033703, 3144134277, 1013904242, 2773480762, 1359893119,
   2600822924, 528734635, 1541459225]

def smallSigma0 (x : Nat) : Nat := w32 ((rotr32 7 x ^^^ rotr32 18 x) ^^^ shr32 3 x)
def smallSigma1 (x : Nat) : Nat := w32 ((rotr32 17 x ^^^ rotr32 19 x) ^^^ shr32 10 x)
def bigSigma0 (x : Nat) : Nat := w32 ((rotr32 2 x ^^^ rotr32 13 x) ^^^ rotr32 22 x)
def bigSigma1 (x : Nat) : Nat := w32 ((rotr32 6 x ^^^ rotr32 11 x) ^^^ rotr32 25 x)

def chFn (e f g : Nat) : Nat := (e &&& f) ^^^ (not32 e &&& g)
def majFn (a b c : Nat) : Nat := ((a &&& b) ^^^ (a &&& c)) ^^^ (b &&& c)

/-- One step of the message-schedule extension. -/
def scheduleStep (ws : List Nat) : List Nat :=
  let n := ws.length
  let x := w32 (smallSigma1 (ws.getD (n - 2) 0) + ws.getD (n - 7) 0 +
                smallSigma0 (ws.getD (n - 15) 0) + ws.getD (n - 16) 0)
  ws ++ [x]

def scheduleExtend : Nat → List Nat → List Nat
  | 0, ws => ws
  | k + 1, ws => scheduleExtend k (scheduleStep ws)

/-- One SHA-256 compression round on the eight-word working state. -/
def roundStep (st : Nat × Nat × Nat × Nat × Nat × Nat × Nat × Nat) (kw : Nat × Nat) :
    Nat × Nat × Nat × Nat × Nat × Nat × Nat × Nat :=
  match st, kw with
  | (a, b, c, d, e, f, g, h), (k, w) =>
    let t1 := w32 (h + bigSigma1 e + chFn e f g + k + w)
    let t2 := w32 (bigSigma0 a + majFn a b c)
    (w32 (t1 + t2), a, b, c, w32 (d + t1), e, f, g)

/-- Compression of one 16-word block into the running hash state. -/
def compress (hs : List Nat) (block : List Nat) : List Nat :=
  let ws := scheduleExtend 48 block
  match hs with
  | [h0, h1, h2, h3, h4, h5, h6, h7] =>
    match (sha256K.zip ws).foldl roundStep (h0, h1, h2, h3, h4, h5, h6, h7) with
    | (a, b, c, d, e, f, g, h) =>
      [w32 (h0 + a), w32 (h1 + b), w32 (h2 + c), w32 (h3 + d),
       w32 (h4 + e), w32 (h5 + f), w32 (h6 + g), w32 (h7 + h)]
  | _ => hs

/-- Big-endian 64-bit length encoding. -/
def be64 (n : Nat) : List Nat :=
  [n / 2 ^ 56 % 256, n / 2 ^ 48 % 256, n / 2 ^ 40 % 256, n / 2 ^ 32 % 256,
   n / 2 ^ 24 % 256, n / 2 ^ 16 % 256, n / 2 ^ 8 % 256, n % 256]

/-- FIPS 180-4 padding: `0x80`, zeros to 56 mod 64, then the bit length. -/
def padMsg (msg : List Nat) : List Nat :=
  msg ++ [128] ++ List.replicate ((119 - msg.length % 64) % 64) 0 ++ be64 (msg.length * 8)

def bytesToWords : Nat → List Nat → List Nat
  | 0, _ => []
  | _ + 1, [] => []
  | fuel + 1, b0 :: b1 :: b2 :: b3 :: rest =>
      (((b0 * 256 + b1) * 256 + b2) * 256 + b3) :: bytesToWords fuel rest
  | _ + 1, l => l

def toBlocks : Nat → List Nat → List (List Nat)
  | 0, _ => []
  | _ + 1, [] => []
  | fuel + 1, l => bytesToWords 16 (l.take 64) :: toBlocks fuel (l.drop 64)

/-- Lowercase hexadecimal digit. -/
def hexDig (n : Nat) : Char := if n < 10 then Char.ofNat (48 + n) else Char.ofNat (87 + n)

def hex8 (n : Nat) : List Char :=
  [hexDig (n / 2 ^ 28 % 16), hexDig (n / 2 ^ 24 % 16), hexDig (n / 2 ^ 20 % 16),
   hexDig (n / 2 ^ 16 % 16), hexDig (n / 2 ^ 12 % 16), hexDig (n / 2 ^ 8 % 16),
   hexDig (n / 2 ^ 4 % 16), hexDig (n % 16)]

/-- Models `hashlib.sha256(bytes).hexdigest()`. -/
def sha256hex (msg : List Nat) : String :=
  let padded := padMsg msg
  let hs := (toBlocks (padded.length / 64 + 1) padded).foldl compress sha256H0
  String.mk (hs.foldr (fun h acc => hex8 h ++ acc) [])

/-! ## JSON values and the canonical serialization

`canon` mirrors `json.dumps(value, sort_keys=True)` with CPython's default
separators `", "` / `": "` and `ensure_ascii=True` escaping, followed by
`.encode()` (the escaped output is pure ASCII, so encoding is `Char.toNat`
per character). -/

/-- JSON values as built and stored by the engine.  Object member lists keep
insertion order, as Python dicts do; numbers are modelled as integers. -/
inductive Json where
  | null : Json
  | bool (b : Bool) : Json
  | num (n : Int) : Json
  | str (s : String) : Json
  | arr (xs : List Json) : Json
  | obj (l : List (String × Json)) : Json

/-- Entries (Python dicts built by the engine) are insertion-ordered
association lists with string keys. -/
abbrev Entry := List (String × Json)

def digitChar (n : Nat) : Char := Char.ofNat (48 + n)

/-- Decimal digits of a natural number, via structural fuel recursion. -/
def natReprF : Nat → Nat → List Char
  | 0, _ => []
  | fuel + 1, n => if n < 10 then [digitChar n] else natReprF fuel (n / 10) ++ [digitChar (n % 10)]

def natRepr (n : Nat) : List Char := natReprF (n + 1) n

/-- Python `repr` of an `int`. -/
def intRepr (n : Int) : List Char :=
  if n < 0 then '-' :: natRepr n.natAbs else natRepr n.natAbs

def hex4 (n : Nat) : List Char :=
  [hexDig (n / 4096 % 16), hexDig (n / 256 % 16), hexDig (n / 16 % 16), hexDig (n % 16)]

/-- CPython `ensure_ascii` string escaping: `"` and `\` escaped, printable
ASCII kept, named control escapes, `\uXXXX` for other controls and all
non-ASCII, surrogate pairs beyond the BMP. -/
def escChar (c : Char) : List Char :=
  if c = '"' then ['\\', '"']
  else if c = '\\' then ['\\', '\\']
  else if 32 ≤ c.toNat ∧ c.toNat ≤ 126 then [c]
  else if c = '\x08' then ['\\', 'b']
  else if c = '\t' then ['\\', 't']
  else if c = '\n' then ['\\', 'n']
  else if c = '\x0c' then ['\\', 'f']
  else if c = '\r' then ['\\', 'r']
  else if c.toNat < 65536 then '\\' :: 'u' :: hex4 c.toNat
  else '\\' :: 'u' :: hex4 (55296 + (c.toNat - 65536) / 1024) ++
       '\\' :: 'u' :: hex4 (56320 + (c.toNat - 65536) % 1024)

def escStr : List Char → List Char
  | [] => []
  | c :: r => escChar c ++ escStr r

/-- A JSON string literal: quoted, escaped. -/
def quoteStr (s : String) : List Char := '"' :: escStr s.data ++ ['"']

/-- Join with the default `json.dumps` item separator `", "`. -/
def joinComma : List (List Char) → List Char
  | [] => []
  | [x] => x
  | x :: y :: xs => x ++ ',' :: ' ' :: joinComma (y :: xs)

/-- Code-point lexicographic order on character lists — Python's `str`
comparison, used by `sorted`/`sort_keys`. -/
def lexLE : List Char → List Char → Bool
  | [], _ => true
  | _ :: _, [] => false
  | c :: r, d :: s =>
      if c.toNat < d.toNat then true else if d.toNat < c.toNat then false else lexLE r s

/-- Stable insertion into a sorted list (Python's `sorted` is a stable sort;
for key-distinct inputs any stable comparison sort computes the same list). -/
def orderedInsertB (le : α → α → Bool) (a : α) : List α → List α
  | [] => [a]
  | b :: l => if le a b then a :: b :: l else b :: orderedInsertB le a l

def insertionSortB (le : α → α → Bool) : List α → List α
  | [] => []
  | a :: l => orderedInsertB le a (insertionSortB le l)

/-- Key order on pairs whose second component is already rendered. -/
def keyLE (p q : String × List Char) : Bool := lexLE p.1.data q.1.data

/-- Key order on JSON object members. -/
def pairKeyLE (p q : String × Json) : Bool := lexLE p.1.data q.1.data

/-- Rendering of one object member, with the default `": "` key separator. -/
def renderPair (p : String × List Char) : List Char := quoteStr p.1 ++ ':' :: ' ' :: p.2

mutual
/-- Canonical serialization: `json.dumps(v, sort_keys=True)` as a character
list.  Object members are rendered first and then sorted by key, which for
Python dicts (distinct keys) agrees with sorting the members themselves. -/
def canon : Json → List Char
  | .null => "null".data
  | .bool true => "true".data
  | .bool false => "false".data
  | .num n => intRepr n
  | .str s => quoteStr s
  | .arr xs => '[' :: (joinComma (canonL xs) ++ [']'])
  | .obj l => '{' :: (joinComma ((insertionSortB keyLE (canonO l)).map renderPair) ++ ['}'])

def canonL : List Json → List (List Char)
  | [] => []
  | x :: xs => canon x :: canonL xs

def canonO : List (String × Json) → List (String × List Char)
  | [] => []
  | (k, v) :: l => (k, canon v) :: canonO l
end

/-! ## Dict primitives -/

/-- First-match lookup in an association list (Python `d[k]` / `k in d`;
for genuine dicts keys are distinct, so first match is the match). -/
def dictLookup (k : String) : Entry → Option Json
  | [] => none
  | (k0, v) :: l => if k0 = k then some v else dictLookup k l

def dictContains (k : String) (l : Entry) : Bool := (dictLookup k l).isSome

/-- Python `d[k] = v`: replace in place when the key is present, else append. -/
def dictSet (l : Entry) (k : String) (v : Json) : Entry :=
  if dictContains k l then l.map (fun p => if p.1 = k then (k, v) else p) else l ++ [(k, v)]

/-! ## Checksum codec (`_hash_entry`, `verify_integrity`) -/

/-- Models `_hash_entry`: SHA-256 hex digest of the canonical serialization of
the entry with its `checksum` field removed. -/
def hash_entry (entry : Entry) : String :=
  sha256hex ((canon (.obj (entry.filter (fun p => p.1 ≠ "checksum")))).map Char.toNat)

/-- Python `stored == computed` where `computed` is known to be a `str`:
equal exactly when `stored` is an equal string. -/
def eqStrVal (v : Json) (s : String) : Bool :=
  match v with
  | .str t => t == s
  | _ => false

/-- Models `verify_integrity`: `False` when no checksum is present, else
compares the stored checksum with the recomputed digest. -/
def verify_integrity (entry : Entry) : Bool :=
  match dictLookup "checksum" entry with
  | none => false
  | some stored => eqStrVal stored (hash_entry entry)

/-! ## Engine state and journal append (`log_thought`) -/

/-- The evolution aggregate document (`evolution.json`). -/
structure Evolution where
  created : String
  total_sessions : Int
  total_thoughts : Int
  learning_milestones : List Entry
  pattern_recognition : List Entry
  system_understanding : List (String × Entry)
  external_signals_created : Int
  sessions : List Entry

/-- In-memory engine state: session id, session thought buffer, aggregate. -/
structure EngineState where
  session_id : String
  thoughts : List Entry
  evolution : Evolution

/-- The external-integration import guard: the import is commented out in the
source, so this is constantly `false`. -/
def EXTERNAL_INTEGRATION_AVAILABLE : Bool := false

/-- Category lookup of `_create_external_signal`. -/
def categoryOf (thought_type : String) : String :=
  if thought_type = "pattern_recognition" then "code_pattern"
  else if thought_type = "problem_solving" then "solution_approach"
  else if thought_type = "system_understanding" then "architecture_insight"
  else if thought_type = "user_interaction" then "user_preference"
  else if thought_type = "learning" then "evolution_milestone"
  else "general_insight"

/-- Topic of the signal document built by `_create_external_signal`. -/
def signalTopic (thought_type stamp : String) : String :=
  "Echo_" ++ categoryOf thought_type ++ "_" ++ stamp

/-- Models `log_thought`.  `now` stands for `datetime.now().isoformat()` and
`stamp` for the signal timestamp; persistence of the session file and of
`evolution.json` is the caller's view of `thoughts` / `evolution`.  Returns
the finalized entry together with the new state. -/
def log_thought (st : EngineState) (now stamp : String) (thought_type content : String)
    (context : Option Entry) (create_signal : Bool) : Entry × EngineState :=
  let thought_entry : Entry :=
    [("timestamp", .str now), ("session_id", .str st.session_id),
     ("type", .str thought_type), ("content", .str content),
     ("context", .obj (context.getD [])), ("signal_created", .bool false)]
  let afterSignal : Entry × Evolution :=
    if create_signal && EXTERNAL_INTEGRATION_AVAILABLE then
      (dictSet (dictSet thought_entry "signal_created" (.bool true))
         "signal_topic" (.str (signalTopic thought_type stamp)),
       { st.evolution with
           external_signals_created := st.evolution.external_signals_created + 1 })
    else (thought_entry, st.evolution)
  let finalized : Entry := dictSet afterSignal.1 "checksum" (.str (hash_entry afterSignal.1))
  (finalized,
   { session_id := st.session_id,
     thoughts := st.thoughts ++ [finalized],
     evolution := { afterSignal.2 with total_thoughts := afterSignal.2.total_thoughts + 1 } })

/-- Models `_log_session_start`. -/
def log_session_start (st : EngineState) (now : String) : EngineState :=
  let session_metadata : Entry :=
    [("session_id", .str st.session_id), ("started", .str now),
     ("context", .str "EchoCopi Framework Session"),
     ("agent_version", .str "Generic AI Agent")]
  { st with
    evolution := { st.evolution with
      total_sessions := st.evolution.total_sessions + 1,
      sessions := st.evolution.sessions ++ [session_metadata] } }

/-! ## Semantic wrappers -/

/-- The duplicate test of `recognize_pattern`:
`pattern_name in [p["pattern"] for p in evolution_data["pattern_recognition"]]`
(Python `in` compares with `==`; the engine only stores string pattern
names). -/
def hasPatternName (evo : Evolution) (pattern_name : String) : Bool :=
  (evo.pattern_recognition.map (fun p => (dictLookup "pattern" p).getD .null)).any
    (fun v => eqStrVal v pattern_name)

/-- Models `recognize_pattern`.  `nowPat` / `nowLog` are the two successive
`datetime.now()` readings (pattern entry, then `log_thought`). -/
def recognize_pattern (st : EngineState) (nowPat nowLog stamp : String)
    (pattern_name description : String) (evidence : Option Entry)
    (notify_external : Bool) : Entry × EngineState :=
  let content := "Pattern Recognized: " ++ pattern_name ++ "\n" ++ description
  let pattern_entry : Entry :=
    [("timestamp", .str nowPat), ("pattern", .str pattern_name),
     ("description", .str description), ("evidence", .obj (evidence.getD []))]
  let evo1 :=
    if !hasPatternName st.evolution pattern_name then
      { st.evolution with
        pattern_recognition := st.evolution.pattern_recognition ++ [pattern_entry] }
    else st.evolution
  log_thought { st with evolution := evo1 } nowLog stamp "pattern_recognition" content
    (some [("pattern", .str pattern_name),
           ("evidence", match evidence with | some e => .obj e | none => .null)])
    notify_external

/-- Models `learn_preference`. -/
def learn_preference (st : EngineState) (now stamp : String)
    (preference_name description : String) (examples : Option (List String))
    (notify_external : Bool) : Entry × EngineState :=
  let content := "Learned Preference: " ++ preference_name ++ "\n" ++ description
  log_thought st now stamp "user_interaction" content
    (some [("preference", .str preference_name),
           ("examples", .arr ((examples.getD []).map .str))])
    notify_external

/-- Models `understand_system`.  `nowU` is the `learned` timestamp, `nowLog`
the `log_thought` timestamp. -/
def understand_system (st : EngineState) (nowU nowLog stamp : String)
    (component understanding : String) (connections : Option (List String))
    (notify_external : Bool) : Entry × EngineState :=
  let content := "System Understanding: " ++ component ++ "\n" ++ understanding
  let record : Entry :=
    [("understanding", .str understanding),
     ("connections", .arr ((connections.getD []).map .str)),
     ("learned", .str nowU)]
  let su := st.evolution.system_understanding
  let su1 :=
    if (su.map Prod.fst).contains component then
      su.map (fun p => if p.1 = component then (component, record) else p)
    else su ++ [(component, record)]
  log_thought { st with evolution := { st.evolution with system_understanding := su1 } }
    nowLog stamp "system_understanding" content
    (some [("component", .str component),
           ("connections", .arr ((connections.getD []).map .str))])
    notify_external

/-- Models `milestone`.  `nowM` is the milestone timestamp, `nowLog` the
`log_thought` timestamp. -/
def milestone (st : EngineState) (nowM nowLog stamp : String)
    (milestone_name description impact : String)
    (notify_external : Bool) : Entry × EngineState :=
  let milestone_entry : Entry :=
    [("timestamp", .str nowM), ("milestone", .str milestone_name),
     ("description", .str description), ("impact", .str impact)]
  let content := "Milestone: " ++ milestone_name ++ "\n" ++ description ++ "\nImpact: " ++ impact
  log_thought
    { st with evolution := { st.evolution with
        learning_milestones := st.evolution.learning_milestones ++ [milestone_entry] } }
    nowLog stamp "learning" content (some milestone_entry) notify_external

/-! ## Resume reconciler (`resume_on_startup`) -/

/-- Python truthiness of a JSON value (`if not plan_name`). -/
def truthy : Json → Bool
  | .null => false
  | .bool b => b
  | .num n => !(n == 0)
  | .str s => !s.data.isEmpty
  | .arr xs => !xs.isEmpty
  | .obj l => !l.isEmpty

/-- Outcome of `resume_on_startup`: `noState` for a missing/unreadable state
file, the raw state document, a resume payload, or the `TypeError` Python
raises when `current_plan` is truthy but not a string (or the parsed state
is not an object). -/
inductive ResumeResult where
  | noState : ResumeResult
  | rawState (state : Json) : ResumeResult
  | payload (state : Json) (plan_file : String) (completed_steps : List Int)
      (next_step : Int) : ResumeResult
  | typeError : ResumeResult

/-- Glob match for the checkpoint pattern `step-*.ok` (`*` matches any,
possibly empty, character sequence). -/
def globStepOk (name : String) : Bool :=
  match name.data with
  | 's' :: 't' :: 'e' :: 'p' :: '-' :: rest =>
    match rest.reverse with
    | 'k' :: 'o' :: '.' :: _ => true
    | _ => false
  | _ => false

/-- `pathlib.Path(name).stem`: the name without its last dot-suffix.  (For
names that match `step-*.ok` the last dot is always the one before `ok`.) -/
def pathStem (name : String) : String :=
  let r := name.data.reverse
  if r.contains '.' then String.mk (((r.dropWhile (fun c => !(c == '.'))).drop 1).reverse)
  else name

/-- `name.split("-", 1)[1]`: everything after the first dash; `none` models
the `IndexError` when there is no dash (caught and skipped by the source). -/
def afterFirstDash : List Char → Option (List Char)
  | [] => none
  | '-' :: r => some r
  | _ :: r => afterFirstDash r

def isPySpace (c : Char) : Bool :=
  c == ' ' || c == '\t' || c == '\n' || c == '\r' || c == '\x0b' || c == '\x0c'

def isPyDigit (c : Char) : Bool := 48 ≤ c.toNat && c.toNat ≤ 57

/-- Digit-group tail of Python `int()`: digits with single underscores
strictly between digits. -/
def pyDigitsGo : Nat → List Char → Option Nat
  | acc, [] => some acc
  | acc, c :: r =>
    if isPyDigit c then pyDigitsGo (acc * 10 + (c.toNat - 48)) r
    else if c == '_' then
      match r with
      | d :: r2 => if isPyDigit d then pyDigitsGo (acc * 10 + (d.toNat - 48)) r2 else none
      | [] => none
    else none

def pyDigits : List Char → Option Nat
  | [] => none
  | c :: r => if isPyDigit c then pyDigitsGo (c.toNat - 48) r else none

/-- Python `int(str)`: optional surrounding whitespace, optional sign, digits
(with underscore separators); `none` models `ValueError`. -/
def pyInt (s : List Char) : Option Int :=
  let t := ((s.dropWhile isPySpace).reverse.dropWhile isPySpace).reverse
  match t with
  | '+' :: r => (pyDigits r).map Int.ofNat
  | '-' :: r => (pyDigits r).map (fun n => -(n : Int))
  | r => (pyDigits r).map Int.ofNat

/-- Step number parsed from one checkpoint marker name:
`int(marker.stem.split("-", 1)[1])`, with parse failures skipped. -/
def markerStep (name : String) : Option Int :=
  match afterFirstDash (pathStem name).data with
  | none => none
  | some part => pyInt part

/-- Python `max` over a nonempty list (head-seeded left fold). -/
def pyMax (c : Int) (cs : List Int) : Int :=
  cs.foldl (fun a b => if a < b then b else a) c

/-- Models `resume_on_startup`.  File-system facts are passed explicitly:
whether `state.json` exists, the result of parsing it (`none` models the
caught read/parse exception), the plan directory path, plan-file existence,
and the checkpoint directory listing. -/
def resume_on_startup (state_exists : Bool) (state_read : Option Json)
    (plans_dir : String) (plan_exists : String → Bool)
    (checkpoint_names : List String) : ResumeResult :=
  if !state_exists then .noState
  else
    match state_read with
    | none => .noState
    | some state =>
      match state with
      | .obj members =>
        let plan_name := (dictLookup "current_plan" members).getD .null
        if !truthy plan_name then .rawState state
        else
          match plan_name with
          | .str pname =>
            if !plan_exists pname then .rawState state
            else
              let completed_steps :=
                (checkpoint_names.filter globStepOk).filterMap markerStep
              let next_step : Int :=
                match completed_steps with
                | [] => 1
                | c :: cs => pyMax c cs + 1
              .payload state (plans_dir ++ "/" ++ pname)
                (insertionSortB (fun a b : Int => a ≤ b) completed_steps) next_step
          | _ => .typeError
      | _ => .typeError

/-! ## Session verification (`verify_session`) -/

/-- The report returned by `verify_session`. -/
structure SessionReport where
  session_file : String
  total_entries : Nat
  verified : Nat
  tampered : Nat
  missing_checksum : Nat
  integrity_rate : String

/-- Models the f-string `f"{(verified/total)*100:.1f}%"` on the exact ratio:
percentage in tenths, rounded half to even, one decimal place. -/
def ratePercent (verified total : Nat) : String :=
  let num := verified * 1000
  let q := num / total
  let r2 := 2 * (num % total)
  let tenths := if r2 > total then q + 1 else if r2 < total then q
    else if q % 2 = 0 then q else q + 1
  String.mk (natRepr (tenths / 10) ++ '.' :: [digitChar (tenths % 10)] ++ ['%'])

/-- Models `verify_session` on the parsed lines of a session file (each line
a JSON object; a parse failure would abort the whole verification, which is
outside this model).  Classifies each entry into exactly one bucket. -/
def verify_session (session_file : String) (entries : List Entry) : SessionReport :=
  let counts := entries.foldl
    (fun (acc : Nat × Nat × Nat) entry =>
      if !dictContains "checksum" entry then (acc.1, acc.2.1, acc.2.2 + 1)
      else if verify_integrity entry then (acc.1 + 1, acc.2.1, acc.2.2)
      else (acc.1, acc.2.1 + 1, acc.2.2))
    (0, 0, 0)
  let total := counts.1 + counts.2.1 + counts.2.2
  { session_file := session_file
    total_entries := total
    verified := counts.1
    tampered := counts.2.1
    missing_checksum := counts.2.2
    integrity_rate := if total > 0 then ratePercent counts.1 total else "N/A" }

/-- Counter triple comparison for the monotonicity invariant of the
evolution aggregate. -/
def countersLE (a b : Evolution) : Prop :=
  a.total_sessions ≤ b.total_sessions ∧ a.total_thoughts ≤ b.total_thoughts ∧
  a.external_signals_created ≤ b.external_signals_created

/-! ## Fixtures for concrete witnesses -/

/-- Fixture: an aggregate that already holds one pattern named "P". -/
def sampleEvolution : Evolution :=
  { created := "c", total_sessions := 1, total_thoughts := 1,
    learning_milestones := [],
    pattern_recognition :=
      [[("timestamp", .str "t0"), ("pattern", .str "P"),
        ("description", .str "first"), ("evidence", .obj [])]],
    system_understanding := [], external_signals_created := 0, sessions := [] }

/-- Fixture: an engine state over `sampleEvolution`. -/
def sampleState : EngineState :=
  { session_id := "s", thoughts := [], evolution := sampleEvolution }

/-! ## Canonical normal form, well-formedness, order-equivalence

`sortJ` recursively sorts every object member list by key: it is the
value-level normal form matching what `canon` serializes.  `wfJson` states
the dict invariant (distinct keys at every object node) that every value
built from Python dicts satisfies.  `JEquiv` relates two values exactly when
they hold the same key-value pairs with object member lists possibly in
different insertion orders (recursively) — Python value equality on the
JSON fragment the engine stores. -/

mutual
def jsize : Json → Nat
  | .null => 1
  | .bool _ => 1
  | .num _ => 1
  | .str s => 1 + s.data.length
  | .arr xs => 1 + jsizeL xs
  | .obj l => 1 + jsizeO l

def jsizeL : List Json → Nat
  | [] => 0
  | x :: xs => jsize x + jsizeL xs

def jsizeO : List (String × Json) → Nat
  | [] => 0
  | (k, v) :: l => 1 + k.data.length + jsize v + jsizeO l
end

mutual
def sortJ : Json → Json
  | .null => .null
  | .bool b => .bool b
  | .num n => .num n
  | .str s => .str s
  | .arr xs => .arr (sortJL xs)
  | .obj l => .obj (insertionSortB pairKeyLE (sortJO l))

def sortJL : List Json → List Json
  | [] => []
  | x :: xs => sortJ x :: sortJL xs

def sortJO : List (String × Json) → List (String × Json)
  | [] => []
  | (k, v) :: l => (k, sortJ v) :: sortJO l
end

/-- Distinctness of a key list (no duplicates). -/
def nodupKeys : List String → Bool
  | [] => true
  | k :: r => !r.contains k && nodupKeys r

mutual
def wfJson : Json → Bool
  | .null => true
  | .bool _ => true
  | .num _ => true
  | .str _ => true
  | .arr xs => wfJsonL xs
  | .obj l => nodupKeys (l.map Prod.fst) && wfJsonO l

def wfJsonL : List Json → Bool
  | [] => true
  | x :: xs => wfJson x && wfJsonL xs

def wfJsonO : List (String × Json) → Bool
  | [] => true
  | (_, v) :: l => wfJson v && wfJsonO l
end

mutual
inductive JEquiv : Json → Json → Prop where
  | null : JEquiv .null .null
  | bool (b : Bool) : JEquiv (.bool b) (.bool b)
  | num (n : Int) : JEquiv (.num n) (.num n)
  | str (s : String) : JEquiv (.str s) (.str s)
  | arr {xs ys : List Json} : JEquivL xs ys → JEquiv (.arr xs) (.arr ys)
  | obj {l1 l2 l3 : List (String × Json)} :
      JEquivO l1 l3 → l3.Perm l2 → JEquiv (.obj l1) (.obj l2)

inductive JEquivL : List Json → List Json → Prop where
  | nil : JEquivL [] []
  | cons {x y : Json} {xs ys : List Json} :
      JEquiv x y → JEquivL xs ys → JEquivL (x :: xs) (y :: ys)

inductive JEquivO : List (String × Json) → List (String × Json) → Prop where
  | nil : JEquivO [] []
  | cons (k : String) {v w : Json} {ps qs : List (String × Json)} :
      JEquiv v w → JEquivO ps qs → JEquivO ((k, v) :: ps) ((k, w) :: qs)
end

/-! ## A reader for canonical output

Used only in proofs: running the reader over `canon v` recovers `sortJ v`,
which makes `canon` injective up to `JEquiv` — the key step for showing that
a genuine mutation always changes the canonical serialization. -/

def hexVal (c : Char) : Option Nat :=
  if 48 ≤ c.toNat ∧ c.toNat ≤ 57 then some (c.toNat - 48)
  else if 97 ≤ c.toNat ∧ c.toNat ≤ 102 then some (c.toNat - 87)
  else none

/-- Reads four hexadecimal digits. -/
def hex4Val : List Char → Option (Nat × List Char)
  | h1 :: h2 :: h3 :: h4 :: r =>
    match hexVal h1, hexVal h2, hexVal h3, hexVal h4 with
    | some a, some b, some c, some d => some (((a * 16 + b) * 16 + c) * 16 + d, r)
    | _, _, _, _ => none
  | _ => none

/-- Decodes one `\\uXXXX` escape (after the `\\u`): a BMP code point or a
surrogate pair; returns the decoded character and the remaining input. -/
def readUEsc (r2 : List Char) : Option (Char × List Char) :=
  match hex4Val r2 with
  | none => none
  | some (n, r3) =>
    if 55296 ≤ n ∧ n < 56320 then
      match r3 with
      | '\\' :: 'u' :: rest3 =>
        match hex4Val rest3 with
        | none => none
        | some (m, r4) =>
          if 56320 ≤ m ∧ m < 57344 then
            some (Char.ofNat (65536 + (n - 55296) * 1024 + (m - 56320)), r4)
          else none
      | _ => none
    else some (Char.ofNat n, r3)

def readStrBody : Nat → List Char → Option (List Char × List Char)
  | 0, _ => none
  | _ + 1, [] => none
  | fuel + 1, c :: r =>
    if c = '"' then some ([], r)
    else if c = '\\' then
      match r with
      | [] => none
      | e :: r2 =>
        if e = '"' then (readStrBody fuel r2).map (fun p => ('"' :: p.1, p.2))
        else if e = '\\' then (readStrBody fuel r2).map (fun p => ('\\' :: p.1, p.2))
        else if e = 'b' then (readStrBody fuel r2).map (fun p => ('\x08' :: p.1, p.2))
        else if e = 't' then (readStrBody fuel r2).map (fun p => ('\t' :: p.1, p.2))
        else if e = 'n' then (readStrBody fuel r2).map (fun p => ('\n' :: p.1, p.2))
        else if e = 'f' then (readStrBody fuel r2).map (fun p => ('\x0c' :: p.1, p.2))
        else if e = 'r' then (readStrBody fuel r2).map (fun p => ('\r' :: p.1, p.2))
        else if e = 'u' then
          match readUEsc r2 with
          | none => none
          | some (ch, r3) => (readStrBody fuel r3).map (fun p => (ch :: p.1, p.2))
        else none
    else (readStrBody fuel r).map (fun p => (c :: p.1, p.2))

def readDigitsGo : Nat → List Char → Nat × List Char
  | acc, [] => (acc, [])
  | acc, c :: r => if isPyDigit c then readDigitsGo (acc * 10 + (c.toNat - 48)) r else (acc, c :: r)

def readInt : List Char → Option (Int × List Char)
  | [] => none
  | c :: r =>
    if c = '-' then
      match r with
      | [] => none
      | c2 :: r2 =>
        if isPyDigit c2 then
          let p := readDigitsGo (c2.toNat - 48) r2
          some (-(p.1 : Int), p.2)
        else none
    else if isPyDigit c then
      let p := readDigitsGo (c.toNat - 48) r
      some ((p.1 : Int), p.2)
    else none

mutual
def readVal : Nat → List Char → Option (Json × List Char)
  | 0, _ => none
  | fuel + 1, l =>
    match l with
    | [] => none
    | c :: r =>
      if c = 'n' then
        match r with
        | 'u' :: 'l' :: 'l' :: r2 => some (.null, r2)
        | _ => none
      else if c = 't' then
        match r with
        | 'r' :: 'u' :: 'e' :: r2 => some (.bool true, r2)
        | _ => none
      else if c = 'f' then
        match r with
        | 'a' :: 'l' :: 's' :: 'e' :: r2 => some (.bool false, r2)
        | _ => none
      else if c = '"' then (readStrBody fuel r).map (fun p => (.str (String.mk p.1), p.2))
      else if c = '[' then (readItems fuel r).map (fun p => (.arr p.1, p.2))
      else if c = '{' then (readMembers fuel r).map (fun p => (.obj p.1, p.2))
      else (readInt (c :: r)).map (fun p => (.num p.1, p.2))

def readItems : Nat → List Char → Option (List Json × List Char)
  | 0, _ => none
  | fuel + 1, l =>
    match l with
    | [] => none
    | c :: r =>
      if c = ']' then some ([], r)
      else
        match readVal fuel (c :: r) with
        | none => none
        | some (v, rest) =>
          match rest with
          | ',' :: ' ' :: r2 => (readItems fuel r2).map (fun p => (v :: p.1, p.2))
          | ']' :: r2 => some ([v], r2)
          | _ => none

def readMembers : Nat → List Char → Option (List (String × Json) × List Char)
  | 0, _ => none
  | fuel + 1, l =>
    match l with
    | [] => none
    | c :: r =>
      if c = '}' then some ([], r)
      else if c = '"' then
        match readStrBody fuel r with
        | none => none
        | some (k, rest) =>
          match rest with
          | ':' :: ' ' :: r2 =>
            match readVal fuel r2 with
            | none => none
            | some (v, rest2) =>
              match rest2 with
              | ',' :: ' ' :: r3 =>
                (readMembers fuel r3).map (fun p => ((String.mk k, v) :: p.1, p.2))
              | '}' :: r3 => some ([(String.mk k, v)], r3)
              | _ => none
          | _ => none
      else none
end

/-- True when the input does not start with a decimal digit: the stop
condition of the greedy digit reader. -/
def noDigitHead : List Char → Bool
  | [] => true
  | c :: _ => !isPyDigit c

/-! # Theorems -/

/-! ## Validation of the SHA-256 implementation -/

/-- FIPS 180-4 test vector: the digest of "abc". -/
theorem sha256hex_abc :
    sha256hex ("abc".data.map Char.toNat) =
      "ba7816bf8f01cfea414140de5dae2223b00361a396177a9cb410ff61f20015ad" := by decide

/-! ## Generic sorting lemmas -/

theorem orderedInsertB_perm (le : α → α → Bool) (a : α) (l : List α) :
    List.Perm (orderedInsertB le a l) (a :: l) := by
  induction l with
  | nil => simp [orderedInsertB]
  | cons b t ih =>
    by_cases h : le a b = true
    · simp [orderedInsertB, h]
    · simp only [orderedInsertB, h, Bool.false_eq_true, if_false]
      exact (ih.cons b).trans (List.Perm.swap a b t)

theorem insertionSortB_perm (le : α → α → Bool) (l : List α) :
    List.Perm (insertionSortB le l) l := by
  induction l with
  | nil => simp [insertionSortB]
  | cons a t ih =>
    exact (orderedInsertB_perm le a (insertionSortB le t)).trans (ih.cons a)

theorem orderedInsertB_sorted (le : α → α → Bool)
    (htot : ∀ a b, le a b = true ∨ le b a = true)
    (htrans : ∀ a b c, le a b = true → le b c = true → le a c = true)
    (a : α) (l : List α) (hs : List.Pairwise (fun x y => le x y = true) l) :
    List.Pairwise (fun x y => le x y = true) (orderedInsertB le a l) := by
  induction l with
  | nil => simp [orderedInsertB]
  | cons b t ih =>
    rcases List.pairwise_cons.mp hs with ⟨hb, ht⟩
    by_cases h : le a b = true
    · simp only [orderedInsertB, h, if_true]
      refine List.pairwise_cons.mpr ⟨?_, hs⟩
      intro x hx
      rcases List.mem_cons.mp hx with rfl | hx
      · exact h
      · exact htrans a b x h (hb x hx)
    · simp only [orderedInsertB, h, Bool.false_eq_true, if_false]
      refine List.pairwise_cons.mpr ⟨?_, ih ht⟩
      intro x hx
      have hx2 := (orderedInsertB_perm le a t).mem_iff.mp hx
      rcases List.mem_cons.mp hx2 with rfl | hx2
      · rcases htot x b with h2 | h2
        · exact absurd h2 h
        · exact h2
      · exact hb x hx2

theorem insertionSortB_sorted (le : α → α → Bool)
    (htot : ∀ a b, le a b = true ∨ le b a = true)
    (htrans : ∀ a b c, le a b = true → le b c = true → le a c = true)
    (l : List α) :
    List.Pairwise (fun x y => le x y = true) (insertionSortB le l) := by
  induction l with
  | nil => simp [insertionSortB]
  | cons a t ih => exact orderedInsertB_sorted le htot htrans a _ ih

/-- Sorting any permutation of `[1, 2, 3]` yields `[1, 2, 3]`. -/
theorem insertionSortB_int_eq_of_perm (l l2 : List Int)
    (h : List.Perm l l2)
    (hs2 : List.Pairwise (fun x y : Int => (x ≤ y : Bool) = true) l2) :
    insertionSortB (fun a b : Int => a ≤ b) l = l2 := by
  haveI : IsAntisymm Int (fun x y : Int => (decide (x ≤ y)) = true) :=
    ⟨fun a b ha hb => le_antisymm (by simpa using ha) (by simpa using hb)⟩
  exact List.eq_of_perm_of_sorted ((insertionSortB_perm _ l).trans h)
    (insertionSortB_sorted _ (fun a b => by simpa using Int.le_total a b)
      (fun a b c hab hbc => by simp at hab hbc ⊢; omega) l)
    hs2

/-! ## Lemmas about Python `max` -/

theorem pyMax_mem (c : Int) (cs : List Int) : pyMax c cs ∈ c :: cs := by
  induction cs generalizing c with
  | nil => simp [pyMax]
  | cons b t ih =>
    have he : pyMax c (b :: t) = pyMax (if c < b then b else c) t := rfl
    rw [he]
    rcases List.mem_cons.mp (ih (if c < b then b else c)) with h | h
    · rw [h]
      by_cases hb : c < b <;> simp [hb]
    · simp [List.mem_cons, h]

theorem pyMax_ge (c : Int) (cs : List Int) : ∀ x ∈ c :: cs, x ≤ pyMax c cs := by
  induction cs generalizing c with
  | nil => intro x hx; simp at hx; simp [pyMax, hx]
  | cons b t ih =>
    intro x hx
    have he : pyMax c (b :: t) = pyMax (if c < b then b else c) t := rfl
    rw [he]
    have hc : c ≤ pyMax (if c < b then b else c) t := by
      have := ih (if c < b then b else c) (if c < b then b else c) (by simp)
      by_cases hb : c < b <;> simp [hb] at this ⊢ <;> omega
    have hbb : b ≤ pyMax (if c < b then b else c) t := by
      have := ih (if c < b then b else c) (if c < b then b else c) (by simp)
      by_cases hb : c < b <;> simp [hb] at this ⊢ <;> omega
    rcases List.mem_cons.mp hx with rfl | hx
    · exact hc
    rcases List.mem_cons.mp hx with rfl | hx
    · exact hbb
    · exact ih (if c < b then b else c) x (by simp [hx])

/-! ## Claim theorems -/

/-- Claim C1: every event record returned by the journal append operation
(`log_thought`, for any kind, content, context and signal flag) verifies
immediately after creation: `verify_integrity` of the returned record is
`true` — the checksum attached as the final field equals the hash recomputed
over all other fields. -/
theorem C1_append_record_verifies (st : EngineState) (now stamp ty content : String)
    (ctx : Option Entry) (cs : Bool) :
    verify_integrity (log_thought st now stamp ty content ctx cs).1 = true := by
  simp [log_thought, EXTERNAL_INTEGRATION_AVAILABLE, verify_integrity, dictSet, dictContains,
    dictLookup, hash_entry, eqStrVal]

/-- Claim C2 (counterexample): a checkpoint directory whose four markers all
parse to step numbers in `{1, 2, 3}` — with `step-1.ok` and `step-01.ok`
both encoding step 1 — yields `completed_steps = [1, 1, 2, 3]`, not the
`[1, 2, 3]` the claim asserts: `sorted` keeps duplicates.  `next_step = 4`
does hold. -/
theorem C2_duplicate_markers_counterexample :
    (resume_on_startup true
        (some (.obj [("version", .num 1), ("current_plan", .str "p"),
                     ("current_step", .num 0), ("args", .obj [])]))
        "plan" (fun _ => true) ["step-1.ok", "step-01.ok", "step-2.ok", "step-3.ok"] =
      .payload (.obj [("version", .num 1), ("current_plan", .str "p"),
                      ("current_step", .num 0), ("args", .obj [])])
        "plan/p" [1, 1, 2, 3] 4) ∧
    ((["step-1.ok", "step-01.ok", "step-2.ok", "step-3.ok"].filter globStepOk).filterMap markerStep
        = [1, 1, 2, 3]) ∧
    (∀ x ∈ ([1, 1, 2, 3] : List Int), x = 1 ∨ x = 2 ∨ x = 3) ∧
    (1 : Int) ∈ ([1, 1, 2, 3] : List Int) ∧ (2 : Int) ∈ ([1, 1, 2, 3] : List Int) ∧
    (3 : Int) ∈ ([1, 1, 2, 3] : List Int) ∧
    ([1, 1, 2, 3] : List Int) ≠ [1, 2, 3] :=
  ⟨rfl, rfl, by decide, by decide, by decide, by decide, by decide⟩

/-- Claim C2 (amended): when the markers parse to the step numbers 1, 2, 3
in any order with no two distinct markers encoding the same step (the parsed
list is a permutation of `[1, 2, 3]`), and the state names an existing plan,
the reconciler returns `next_step = 4` and `completed_steps = [1, 2, 3]`.
(With duplicate markers encoding the same step, `next_step` is still 4 but
`completed_steps` keeps the duplicates, per the counterexample.) -/
theorem C2_markers_perm_123 (members : Entry) (p plansdir : String)
    (pe : String → Bool) (names : List String)
    (hplan : dictLookup "current_plan" members = some (.str p))
    (hp : truthy (.str p) = true)
    (hex : pe p = true)
    (hsteps : List.Perm ((names.filter globStepOk).filterMap markerStep) [1, 2, 3]) :
    resume_on_startup true (some (.obj members)) plansdir pe names =
      .payload (.obj members) (plansdir ++ "/" ++ p) [1, 2, 3] 4 := by
  have hsort : insertionSortB (fun a b : Int => a ≤ b)
      ((names.filter globStepOk).filterMap markerStep) = [1, 2, 3] :=
    insertionSortB_int_eq_of_perm _ _ hsteps (by decide)
  simp only [resume_on_startup, Bool.not_true, Bool.false_eq_true, if_false, hplan,
    Option.getD_some, hp, hex]
  generalize hL : (names.filter globStepOk).filterMap markerStep = L at hsteps hsort ⊢
  cases L with
  | nil =>
    exfalso
    have := hsteps.length_eq
    simp at this
  | cons c cs =>
    rw [hsort]
    show ResumeResult.payload _ _ _ (pyMax c cs + 1) = _
    have h3mem : (3 : Int) ∈ c :: cs := hsteps.mem_iff.mpr (by decide)
    have hge : (3 : Int) ≤ pyMax c cs := pyMax_ge c cs 3 h3mem
    have hmem : pyMax c cs ∈ ([1, 2, 3] : List Int) := hsteps.mem_iff.mp (pyMax_mem c cs)
    have hmax : pyMax c cs = 3 := by
      simp [List.mem_cons] at hmem
      rcases hmem with h | h | h <;> omega
    rw [hmax]
    norm_num

/-- Witness for C2 (amended) at markers `step-2.ok, step-3.ok, step-1.ok`. -/
theorem C2_markers_perm_123_witness :
    (dictLookup "current_plan" [("current_plan", .str "p")] = some (.str "p") ∧
     truthy (.str "p") = true ∧
     ((["step-2.ok", "step-3.ok", "step-1.ok"].filter globStepOk).filterMap markerStep).Perm
       [1, 2, 3]) ∧
    resume_on_startup true (some (.obj [("current_plan", .str "p")])) "plan"
        (fun _ => true) ["step-2.ok", "step-3.ok", "step-1.ok"] =
      .payload (.obj [("current_plan", .str "p")]) "plan/p" [1, 2, 3] 4 :=
  ⟨⟨rfl, by decide, by decide⟩,
   C2_markers_perm_123 [("current_plan", .str "p")] "p" "plan" (fun _ => true)
     ["step-2.ok", "step-3.ok", "step-1.ok"] rfl (by decide) rfl (by decide)⟩

/-- Claim C3: re-recording an already-present pattern name with a different
description leaves the aggregate's pattern list untouched: same list, hence
same length, and the first (and only) entry for that name keeps the first
recorded description.  The later insert is silently ignored. -/
theorem C3_duplicate_pattern_ignored (st : EngineState)
    (nowPat nowLog stamp name d2 : String) (ev : Option Entry) (ne : Bool)
    (h : hasPatternName st.evolution name = true) :
    (recognize_pattern st nowPat nowLog stamp name d2 ev ne).2.evolution.pattern_recognition =
      st.evolution.pattern_recognition ∧
    (recognize_pattern st nowPat nowLog stamp name d2 ev ne).2.evolution.pattern_recognition.length =
      st.evolution.pattern_recognition.length ∧
    (recognize_pattern st nowPat nowLog stamp name d2 ev ne).2.evolution.pattern_recognition.find?
        (fun q => eqStrVal ((dictLookup "pattern" q).getD .null) name) =
      st.evolution.pattern_recognition.find?
        (fun q => eqStrVal ((dictLookup "pattern" q).getD .null) name) := by
  have hlist : (recognize_pattern st nowPat nowLog stamp name d2 ev ne).2.evolution.pattern_recognition =
      st.evolution.pattern_recognition := by
    simp [recognize_pattern, h, log_thought, EXTERNAL_INTEGRATION_AVAILABLE]
  exact ⟨hlist, by rw [hlist], by rw [hlist]⟩

/-- Witness for C3 on an aggregate that already holds pattern "P". -/
theorem C3_duplicate_pattern_ignored_witness :
    hasPatternName sampleState.evolution "P" = true ∧
    (recognize_pattern sampleState "t1" "t2" "t3" "P" "second" none false).2.evolution.pattern_recognition =
      sampleState.evolution.pattern_recognition :=
  ⟨by decide,
   (C3_duplicate_pattern_ignored sampleState "t1" "t2" "t3" "P" "second" none false (by decide)).1⟩

/-- Claim C6: verifying a record that lacks a checksum field returns `false`
without raising (the function is total), and `verify_session` classifies such
a record as `missing_checksum`, never as `tampered`. -/
theorem C6_missing_checksum_unverifiable (e : Entry) (f : String)
    (h : dictLookup "checksum" e = none) :
    verify_integrity e = false ∧
    (verify_session f [e]).missing_checksum = 1 ∧
    (verify_session f [e]).tampered = 0 := by
  refine ⟨by simp [verify_integrity, h], ?_, ?_⟩ <;>
    simp [verify_session, dictContains, h]

/-- Witness for C6 at a concrete checksum-less record. -/
theorem C6_missing_checksum_unverifiable_witness :
    dictLookup "checksum" [("type", Json.str "learning")] = none ∧
    verify_integrity [("type", Json.str "learning")] = false :=
  ⟨rfl, (C6_missing_checksum_unverifiable [("type", Json.str "learning")] "f" rfl).1⟩

/-- Claim C7: `verify_session` over a session file with zero records reports
a total of 0 and the "N/A" sentinel as integrity rate; no division happens
(the rate is the sentinel branch) and the function is total. -/
theorem C7_empty_session_report (f : String) :
    (verify_session f []).total_entries = 0 ∧
    (verify_session f []).verified = 0 ∧
    (verify_session f []).tampered = 0 ∧
    (verify_session f []).missing_checksum = 0 ∧
    (verify_session f []).integrity_rate = "N/A" :=
  ⟨rfl, rfl, rfl, rfl, rfl⟩

/-- Claim C8: when the state document names a truthy plan whose plan file
does not exist, the reconciler returns the raw state document unchanged —
no crash, no fabricated payload. -/
theorem C8_missing_plan_returns_raw_state (members : Entry) (p plansdir : String)
    (pe : String → Bool) (names : List String)
    (hplan : dictLookup "current_plan" members = some (.str p))
    (hp : truthy (.str p) = true)
    (hex : pe p = false) :
    resume_on_startup true (some (.obj members)) plansdir pe names =
      .rawState (.obj members) := by
  simp only [resume_on_startup, Bool.not_true, Bool.false_eq_true, if_false, hplan,
    Option.getD_some, hp, hex, Bool.not_false, if_true]

/-- Witness for C8 at a concrete state whose plan file is absent. -/
theorem C8_missing_plan_returns_raw_state_witness :
    (dictLookup "current_plan" [("current_plan", .str "p")] = some (.str "p") ∧
     truthy (.str "p") = true) ∧
    resume_on_startup true (some (.obj [("current_plan", .str "p")])) "plan"
        (fun _ => false) [] = .rawState (.obj [("current_plan", .str "p")]) :=
  ⟨⟨rfl, by decide⟩,
   C8_missing_plan_returns_raw_state [("current_plan", .str "p")] "p" "plan"
     (fun _ => false) [] rfl (by decide) rfl⟩

/-- Claim C9: the counters `total_sessions`, `total_thoughts` and
`external_signals_created` are monotonically non-decreasing under every
engine operation: session start, journal append, and the pattern /
preference / understanding / milestone wrappers. -/
theorem C9_counters_monotone :
    (∀ st now, countersLE st.evolution (log_session_start st now).evolution) ∧
    (∀ st now stamp ty content ctx cs,
      countersLE st.evolution (log_thought st now stamp ty content ctx cs).2.evolution) ∧
    (∀ st nowPat nowLog stamp name d ev ne,
      countersLE st.evolution (recognize_pattern st nowPat nowLog stamp name d ev ne).2.evolution) ∧
    (∀ st now stamp name d ex ne,
      countersLE st.evolution (learn_preference st now stamp name d ex ne).2.evolution) ∧
    (∀ st nowU nowLog stamp comp u conns ne,
      countersLE st.evolution (understand_system st nowU nowLog stamp comp u conns ne).2.evolution) ∧
    (∀ st nowM nowLog stamp name d impact ne,
      countersLE st.evolution (milestone st nowM nowLog stamp name d impact ne).2.evolution) := by
  refine ⟨?_, ?_, ?_, ?_, ?_, ?_⟩
  · intro st now
    simp [countersLE, log_session_start]
  · intro st now stamp ty content ctx cs
    simp [countersLE, log_thought, EXTERNAL_INTEGRATION_AVAILABLE]
  · intro st nowPat nowLog stamp name d ev ne
    by_cases h : hasPatternName st.evolution name <;>
      simp [countersLE, recognize_pattern, h, log_thought, EXTERNAL_INTEGRATION_AVAILABLE]
  · intro st now stamp name d ex ne
    simp [countersLE, learn_preference, log_thought, EXTERNAL_INTEGRATION_AVAILABLE]
  · intro st nowU nowLog stamp comp u conns ne
    simp [countersLE, understand_system, log_thought, EXTERNAL_INTEGRATION_AVAILABLE]
  · intro st nowM nowLog stamp name d impact ne
    simp [countersLE, milestone, log_thought, EXTERNAL_INTEGRATION_AVAILABLE]

/-- Claim C10: calling `recognize_pattern` with a pattern name already
present still appends a new record to the session journal and still bumps
`total_thoughts`: the deduplication suppresses only the aggregate's
pattern-list insert, never the journal append. -/
theorem C10_duplicate_pattern_still_logs (st : EngineState)
    (nowPat nowLog stamp name d2 : String) (ev : Option Entry) (ne : Bool)
    (h : hasPatternName st.evolution name = true) :
    (recognize_pattern st nowPat nowLog stamp name d2 ev ne).2.thoughts =
      st.thoughts ++ [(recognize_pattern st nowPat nowLog stamp name d2 ev ne).1] ∧
    (recognize_pattern st nowPat nowLog stamp name d2 ev ne).2.evolution.total_thoughts =
      st.evolution.total_thoughts + 1 := by
  constructor <;> simp [recognize_pattern, h, log_thought, EXTERNAL_INTEGRATION_AVAILABLE]

/-- Witness for C10 on an aggregate that already holds pattern "P". -/
theorem C10_duplicate_pattern_still_logs_witness :
    hasPatternName sampleState.evolution "P" = true ∧
    (recognize_pattern sampleState "t1" "t2" "t3" "P" "second" none false).2.evolution.total_thoughts =
      sampleState.evolution.total_thoughts + 1 :=
  ⟨by decide,
   (C10_duplicate_pattern_still_logs sampleState "t1" "t2" "t3" "P" "second" none false (by decide)).2⟩

/-! ## Order-independence of the checksum codec (C5) -/

theorem char_eq_of_toNat_eq (c d : Char) (h : c.toNat = d.toNat) : c = d :=
  Char.eq_of_val_eq (UInt32.ext h)

theorem string_eq_of_data_eq (a b : String) (h : a.data = b.data) : a = b := by
  cases a; cases b; simp_all

theorem lexLE_total : ∀ a b : List Char, lexLE a b = true ∨ lexLE b a = true := by
  intro a
  induction a with
  | nil => intro b; left; rfl
  | cons c r ih =>
    intro b
    cases b with
    | nil => right; rfl
    | cons d s =>
      by_cases h1 : c.toNat < d.toNat
      · left; simp [lexLE, h1]
      · by_cases h2 : d.toNat < c.toNat
        · right; simp [lexLE, h2]
        · rcases ih s with h | h
          · left; simp [lexLE, h1, h2, h]
          · right; simp [lexLE, h1, h2, h]

theorem lexLE_cons_iff (c d : Char) (r s : List Char) :
    lexLE (c :: r) (d :: s) = true ↔
      c.toNat < d.toNat ∨ (c.toNat = d.toNat ∧ lexLE r s = true) := by
  simp only [lexLE]
  by_cases h1 : c.toNat < d.toNat <;> by_cases h2 : d.toNat < c.toNat <;>
    simp [h1, h2] <;> omega

theorem lexLE_trans : ∀ a b c : List Char,
    lexLE a b = true → lexLE b c = true → lexLE a c = true := by
  intro a
  induction a with
  | nil => intro b c _ _; rfl
  | cons x r ih =>
    intro b c hab hbc
    cases b with
    | nil => simp [lexLE] at hab
    | cons y s =>
      cases c with
      | nil => simp [lexLE] at hbc
      | cons z t =>
        rw [lexLE_cons_iff] at hab hbc ⊢
        rcases hab with h | ⟨he, hr⟩ <;> rcases hbc with h2 | ⟨he2, hr2⟩
        · left; omega
        · left; omega
        · left; omega
        · exact Or.inr ⟨by omega, ih s t hr hr2⟩

theorem lexLE_antisymm : ∀ a b : List Char, lexLE a b = true → lexLE b a = true → a = b := by
  intro a
  induction a with
  | nil =>
    intro b _ hba
    cases b with
    | nil => rfl
    | cons d s => simp [lexLE] at hba
  | cons c r ih =>
    intro b hab hba
    cases b with
    | nil => simp [lexLE] at hab
    | cons d s =>
      rw [lexLE_cons_iff] at hab hba
      rcases hab with h | ⟨he, hr⟩ <;> rcases hba with h2 | ⟨he2, hr2⟩
      · omega
      · omega
      · omega
      · have hc : c = d := char_eq_of_toNat_eq c d (by omega)
        subst hc
        rw [ih s hr hr2]

/-! Forall₂ congruence for insertion sort -/

theorem forall2_eq_map {α β : Type _} {f : α → β} :
    ∀ {l : List α} {m : List β}, List.Forall₂ (fun p q => q = f p) l m → m = l.map f := by
  intro l m h
  induction h with
  | nil => rfl
  | cons hb _ ih => simp [hb, ih]

theorem forall2_self_map {α β : Type _} (f : α → β) (l : List α) :
    List.Forall₂ (fun p q => q = f p) l (l.map f) := by
  induction l with
  | nil => exact .nil
  | cons a t ih => exact .cons rfl ih

theorem orderedInsertB_forall2 {α β : Type _} (le1 : α → α → Bool) (le2 : β → β → Bool)
    (R : α → β → Prop)
    (hle : ∀ a b a2 b2, R a a2 → R b b2 → le1 a b = le2 a2 b2)
    (a : α) (a2 : β) (ha : R a a2) :
    ∀ {l : List α} {l2 : List β}, List.Forall₂ R l l2 →
      List.Forall₂ R (orderedInsertB le1 a l) (orderedInsertB le2 a2 l2) := by
  intro l l2 h
  induction h with
  | nil => exact .cons ha .nil
  | @cons b b2 bs bs2 hb hrest ih =>
    by_cases hc : le1 a b = true
    · have hc2 : le2 a2 b2 = true := by rw [← hle a b a2 b2 ha hb]; exact hc
      simp only [orderedInsertB, hc, hc2, if_true]
      exact .cons ha (.cons hb hrest)
    · have hc2 : le2 a2 b2 = false := by
        rw [← hle a b a2 b2 ha hb]; simpa using hc
      simp only [orderedInsertB, hc, hc2, Bool.false_eq_true, if_false]
      exact .cons hb ih

theorem insertionSortB_forall2 {α β : Type _} (le1 : α → α → Bool) (le2 : β → β → Bool)
    (R : α → β → Prop)
    (hle : ∀ a b a2 b2, R a a2 → R b b2 → le1 a b = le2 a2 b2) :
    ∀ {l : List α} {l2 : List β}, List.Forall₂ R l l2 →
      List.Forall₂ R (insertionSortB le1 l) (insertionSortB le2 l2) := by
  intro l l2 h
  induction h with
  | nil => exact .nil
  | cons hb hrest ih => exact orderedInsertB_forall2 le1 le2 R hle _ _ hb ih

/-- Sorting by key commutes with mapping over the values. -/
theorem insertionSortB_mapSnd {α β : Type _} (g : α → β) (l : List (String × α)) :
    insertionSortB (fun p q => lexLE p.1.data q.1.data) (l.map (fun p => (p.1, g p.2))) =
      (insertionSortB (fun p q => lexLE p.1.data q.1.data) l).map (fun p => (p.1, g p.2)) := by
  refine forall2_eq_map (insertionSortB_forall2
    (fun p q : String × α => lexLE p.1.data q.1.data)
    (fun p q : String × β => lexLE p.1.data q.1.data)
    (fun p q => q = (p.1, g p.2)) ?_ (forall2_self_map _ l))
  intro a b a2 b2 ha hb
  rw [ha, hb]

/-! Sorting a key-nodup list is permutation-invariant -/

theorem insertionSortB_key_eq_of_perm {α : Type _} (l l2 : List (String × α))
    (hperm : List.Perm l l2) (hnd : (l.map Prod.fst).Nodup) :
    insertionSortB (fun p q => lexLE p.1.data q.1.data) l =
      insertionSortB (fun p q => lexLE p.1.data q.1.data) l2 := by
  have htot : ∀ p q : String × α, lexLE p.1.data q.1.data = true ∨ lexLE q.1.data p.1.data = true :=
    fun p q => lexLE_total p.1.data q.1.data
  have htrans : ∀ p q m : String × α, lexLE p.1.data q.1.data = true →
      lexLE q.1.data m.1.data = true → lexLE p.1.data m.1.data = true :=
    fun p q m => lexLE_trans p.1.data q.1.data m.1.data
  haveI : IsAntisymm (String × α)
      (fun p q => lexLE p.1.data q.1.data = true ∧ p.1 ≠ q.1) := by
    constructor
    intro p q hp hq
    exact absurd (string_eq_of_data_eq _ _ (lexLE_antisymm _ _ hp.1 hq.1)) hp.2
  have hnd2 : (l2.map Prod.fst).Nodup := ((hperm.map Prod.fst).nodup_iff).mp hnd
  have key_pairwise : ∀ (m : List (String × α)), (m.map Prod.fst).Nodup →
      List.Pairwise (fun p q : String × α => p.1 ≠ q.1)
        (insertionSortB (fun p q => lexLE p.1.data q.1.data) m) := by
    intro m hm
    have : ((insertionSortB (fun p q => lexLE p.1.data q.1.data) m).map Prod.fst).Nodup :=
      (((insertionSortB_perm _ m).map Prod.fst).nodup_iff).mpr hm
    exact (List.pairwise_map).mp this
  have hs1 : List.Pairwise (fun p q : String × α =>
      lexLE p.1.data q.1.data = true ∧ p.1 ≠ q.1)
      (insertionSortB (fun p q => lexLE p.1.data q.1.data) l) :=
    (insertionSortB_sorted _ htot htrans l).and (key_pairwise l hnd)
  have hs2 : List.Pairwise (fun p q : String × α =>
      lexLE p.1.data q.1.data = true ∧ p.1 ≠ q.1)
      (insertionSortB (fun p q => lexLE p.1.data q.1.data) l2) :=
    (insertionSortB_sorted _ htot htrans l2).and (key_pairwise l2 hnd2)
  exact List.eq_of_perm_of_sorted
    (((insertionSortB_perm _ l).trans hperm).trans (insertionSortB_perm _ l2).symm) hs1 hs2

/-! Idempotence -/

theorem insertionSortB_of_pairwise (le : α → α → Bool) :
    ∀ l, List.Pairwise (fun x y => le x y = true) l → insertionSortB le l = l := by
  intro l h
  induction l with
  | nil => rfl
  | cons a t ih =>
    rcases List.pairwise_cons.mp h with ⟨ha, ht⟩
    simp only [insertionSortB, ih ht]
    cases t with
    | nil => rfl
    | cons b t2 => simp only [orderedInsertB, ha b (by simp), if_true]

/-! nodupKeys and the map lemmas -/

theorem nodupKeys_iff : ∀ ks : List String, nodupKeys ks = true ↔ ks.Nodup := by
  intro ks
  induction ks with
  | nil => simp [nodupKeys]
  | cons k r ih => simp [nodupKeys, ih, List.elem_iff]

theorem canonO_eq_map : ∀ l : List (String × Json), canonO l = l.map (fun p => (p.1, canon p.2)) := by
  intro l
  induction l with
  | nil => rfl
  | cons p t ih => cases p; simp [canonO, ih]

theorem canonL_eq_map : ∀ xs : List Json, canonL xs = xs.map canon := by
  intro xs
  induction xs with
  | nil => rfl
  | cons x t ih => simp [canonL, ih]

theorem sortJO_eq_map : ∀ l : List (String × Json), sortJO l = l.map (fun p => (p.1, sortJ p.2)) := by
  intro l
  induction l with
  | nil => rfl
  | cons p t ih => cases p; simp [sortJO, ih]

theorem sortJL_eq_map : ∀ xs : List Json, sortJL xs = xs.map sortJ := by
  intro xs
  induction xs with
  | nil => rfl
  | cons x t ih => simp [sortJL, ih]

/-! keyLE facts -/

theorem keyLE_total : ∀ p q : String × List Char, keyLE p q = true ∨ keyLE q p = true :=
  fun p q => lexLE_total p.1.data q.1.data

theorem keyLE_trans : ∀ p q m : String × List Char,
    keyLE p q = true → keyLE q m = true → keyLE p m = true :=
  fun p q m => lexLE_trans p.1.data q.1.data m.1.data

theorem canonO_sort_comm (l : List (String × Json)) :
    canonO (insertionSortB pairKeyLE l) = insertionSortB keyLE (canonO l) := by
  rw [canonO_eq_map, canonO_eq_map]
  exact (insertionSortB_mapSnd canon l).symm

/-! canon factors through sortJ -/

theorem canon_sortJ_aux : ∀ n : Nat,
    (∀ a : Json, jsize a ≤ n → canon (sortJ a) = canon a) ∧
    (∀ xs : List Json, jsizeL xs ≤ n → canonL (sortJL xs) = canonL xs) ∧
    (∀ ps : List (String × Json), jsizeO ps ≤ n → canonO (sortJO ps) = canonO ps) := by
  intro n
  induction n using Nat.strong_induction_on with
  | _ n ih =>
    have h1 : ∀ a : Json, jsize a ≤ n → canon (sortJ a) = canon a := by
      intro a ha
      cases a with
      | null => rfl
      | bool b => cases b <;> rfl
      | num m => rfl
      | str s => rfl
      | arr xs =>
        have e : jsize (Json.arr xs) = 1 + jsizeL xs := rfl
        rw [e] at ha
        have h2 := (ih (n - 1) (by omega)).2.1 xs (by omega)
        show canon (.arr (sortJL xs)) = canon (.arr xs)
        simp only [canon, h2]
      | obj l =>
        have e : jsize (Json.obj l) = 1 + jsizeO l := rfl
        rw [e] at ha
        have h3 := (ih (n - 1) (by omega)).2.2 l (by omega)
        show canon (.obj (insertionSortB pairKeyLE (sortJO l))) = canon (.obj l)
        simp only [canon]
        suffices h : insertionSortB keyLE (canonO (insertionSortB pairKeyLE (sortJO l))) =
            insertionSortB keyLE (canonO l) by rw [h]
        rw [canonO_sort_comm, h3]
        exact insertionSortB_of_pairwise keyLE _ (insertionSortB_sorted keyLE keyLE_total keyLE_trans _)
    have h2 : ∀ xs : List Json, jsizeL xs ≤ n → canonL (sortJL xs) = canonL xs := by
      intro xs
      induction xs with
      | nil => intro _; rfl
      | cons x t iht =>
        intro hsz
        have e : jsizeL (x :: t) = jsize x + jsizeL t := rfl
        rw [e] at hsz
        have hx : 1 ≤ jsize x := by
          cases x <;> simp [jsize]
        show canon (sortJ x) :: canonL (sortJL t) = canon x :: canonL t
        rw [h1 x (by omega), iht (by omega)]
    have h3 : ∀ ps : List (String × Json), jsizeO ps ≤ n → canonO (sortJO ps) = canonO ps := by
      intro ps
      induction ps with
      | nil => intro _; rfl
      | cons p t iht =>
        intro hsz
        cases p with
        | mk k v =>
          have e : jsizeO ((k, v) :: t) = 1 + k.data.length + jsize v + jsizeO t := rfl
          rw [e] at hsz
          have hv : 1 ≤ jsize v := by
            cases v <;> simp [jsize]
          show (k, canon (sortJ v)) :: canonO (sortJO t) = (k, canon v) :: canonO t
          rw [h1 v (by omega), iht (by omega)]
    exact ⟨h1, h2, h3⟩

theorem canon_sortJ (a : Json) : canon (sortJ a) = canon a :=
  (canon_sortJ_aux (jsize a)).1 a le_rfl

/-! wf membership characterizations -/

theorem wfJsonO_mem : ∀ l : List (String × Json),
    wfJsonO l = true ↔ ∀ p ∈ l, wfJson p.2 = true := by
  intro l
  induction l with
  | nil => simp [wfJsonO]
  | cons p t ih =>
    cases p with
    | mk k v => simp [wfJsonO, Bool.and_eq_true, ih, List.forall_mem_cons]

theorem wfJsonL_mem : ∀ xs : List Json,
    wfJsonL xs = true ↔ ∀ x ∈ xs, wfJson x = true := by
  intro xs
  induction xs with
  | nil => simp [wfJsonL]
  | cons x t ih => simp [wfJsonL, Bool.and_eq_true, ih, List.forall_mem_cons]

theorem jequivO_keys : ∀ (ps qs : List (String × Json)), JEquivO ps qs →
    ps.map Prod.fst = qs.map Prod.fst := by
  intro ps
  induction ps with
  | nil =>
    intro qs h
    cases h
    rfl
  | cons p t ih =>
    intro qs h
    cases h with
    | cons _ hv hrest => simp [ih _ hrest]

/-! JEquiv implies equal normal forms (on well-formed values) -/

theorem sortJ_equiv_aux : ∀ n : Nat,
    (∀ a b : Json, jsize a ≤ n → JEquiv a b →
      wfJson a = true → wfJson b = true → sortJ a = sortJ b) ∧
    (∀ xs ys : List Json, jsizeL xs ≤ n → JEquivL xs ys →
      wfJsonL xs = true → wfJsonL ys = true → sortJL xs = sortJL ys) ∧
    (∀ ps qs : List (String × Json), jsizeO ps ≤ n → JEquivO ps qs →
      wfJsonO ps = true → wfJsonO qs = true → sortJO ps = sortJO qs) := by
  intro n
  induction n using Nat.strong_induction_on with
  | _ n ih =>
    have h1 : ∀ a b : Json, jsize a ≤ n → JEquiv a b →
        wfJson a = true → wfJson b = true → sortJ a = sortJ b := by
      intro a b hsz h wfa wfb
      cases h with
      | null => rfl
      | bool b2 => rfl
      | num m => rfl
      | str s => rfl
      | arr hL =>
        rename_i xs ys
        have e : jsize (Json.arr xs) = 1 + jsizeL xs := rfl
        rw [e] at hsz
        have h2 := (ih (n - 1) (by omega)).2.1 xs ys (by omega) hL
          (by simpa [wfJson] using wfa) (by simpa [wfJson] using wfb)
        show Json.arr (sortJL xs) = Json.arr (sortJL ys)
        rw [h2]
      | obj ho hperm =>
        rename_i l1 l2 l3
        have e : jsize (Json.obj l1) = 1 + jsizeO l1 := rfl
        rw [e] at hsz
        have wf1 : nodupKeys (l1.map Prod.fst) = true ∧ wfJsonO l1 = true := by
          have : wfJson (Json.obj l1) = (nodupKeys (l1.map Prod.fst) && wfJsonO l1) := rfl
          rw [this, Bool.and_eq_true] at wfa
          exact wfa
        have wf2 : nodupKeys (l2.map Prod.fst) = true ∧ wfJsonO l2 = true := by
          have : wfJson (Json.obj l2) = (nodupKeys (l2.map Prod.fst) && wfJsonO l2) := rfl
          rw [this, Bool.and_eq_true] at wfb
          exact wfb
        have wo3 : wfJsonO l3 = true := by
          rw [wfJsonO_mem]
          intro p hp
          exact (wfJsonO_mem l2).mp wf2.2 p (hperm.mem_iff.mp hp)
        have h3 := (ih (n - 1) (by omega)).2.2 l1 l3 (by omega) ho wf1.2 wo3
        have hkeys : l1.map Prod.fst = l3.map Prod.fst := jequivO_keys l1 l3 ho
        have hnd3 : ((sortJO l3).map Prod.fst).Nodup := by
          rw [sortJO_eq_map, List.map_map]
          have e2 : (Prod.fst ∘ fun p : String × Json => (p.1, sortJ p.2)) = Prod.fst := rfl
          rw [e2, ← hkeys]
          exact (nodupKeys_iff _).mp wf1.1
        have hperm2 : List.Perm (sortJO l3) (sortJO l2) := by
          rw [sortJO_eq_map, sortJO_eq_map]
          exact hperm.map _
        have hsorteq : insertionSortB pairKeyLE (sortJO l3) =
            insertionSortB pairKeyLE (sortJO l2) :=
          insertionSortB_key_eq_of_perm _ _ hperm2 hnd3
        show Json.obj (insertionSortB pairKeyLE (sortJO l1)) =
          Json.obj (insertionSortB pairKeyLE (sortJO l2))
        rw [h3, hsorteq]
    have h2 : ∀ xs ys : List Json, jsizeL xs ≤ n → JEquivL xs ys →
        wfJsonL xs = true → wfJsonL ys = true → sortJL xs = sortJL ys := by
      intro xs
      induction xs with
      | nil =>
        intro ys _ h _ _
        cases h
        rfl
      | cons x t iht =>
        intro ys hsz h wfx wfy
        cases h with
        | cons hv hrest =>
          rename_i y ts
          have e : jsizeL (x :: t) = jsize x + jsizeL t := rfl
          rw [e] at hsz
          have hx1 : 1 ≤ jsize x := by cases x <;> simp [jsize]
          rw [show wfJsonL (x :: t) = (wfJson x && wfJsonL t) from rfl,
            Bool.and_eq_true] at wfx
          rw [show wfJsonL (y :: ts) = (wfJson y && wfJsonL ts) from rfl,
            Bool.and_eq_true] at wfy
          obtain ⟨wx, wt⟩ := wfx
          obtain ⟨wy, wts⟩ := wfy
          show sortJ x :: sortJL t = sortJ y :: sortJL ts
          rw [h1 x y (by omega) hv wx wy, iht ts (by omega) hrest wt wts]
    have h3 : ∀ ps qs : List (String × Json), jsizeO ps ≤ n → JEquivO ps qs →
        wfJsonO ps = true → wfJsonO qs = true → sortJO ps = sortJO qs := by
      intro ps
      induction ps with
      | nil =>
        intro qs _ h _ _
        cases h
        rfl
      | cons p t iht =>
        intro qs hsz h wfp wfq
        cases h with
        | cons _ hv hrest =>
          rename_i k v w ts
          have e : jsizeO ((k, v) :: t) = 1 + k.data.length + jsize v + jsizeO t := rfl
          rw [e] at hsz
          have hv1 : 1 ≤ jsize v := by cases v <;> simp [jsize]
          rw [show wfJsonO ((k, v) :: t) = (wfJson v && wfJsonO t) from rfl,
            Bool.and_eq_true] at wfp
          rw [show wfJsonO ((k, w) :: ts) = (wfJson w && wfJsonO ts) from rfl,
            Bool.and_eq_true] at wfq
          obtain ⟨wv, wt⟩ := wfp
          obtain ⟨ww, wts⟩ := wfq
          show (k, sortJ v) :: sortJO t = (k, sortJ w) :: sortJO ts
          rw [h1 v w (by omega) hv wv ww, iht ts (by omega) hrest wt wts]
    exact ⟨h1, h2, h3⟩

theorem sortJ_eq_of_jequiv {a b : Json} (h : JEquiv a b)
    (wfa : wfJson a = true) (wfb : wfJson b = true) : sortJ a = sortJ b :=
  (sortJ_equiv_aux (jsize a)).1 a b le_rfl h wfa wfb

/-! Filtering the checksum field preserves the equivalence and wf -/

theorem jequivO_filter (P : String → Bool) : ∀ (ps qs : List (String × Json)), JEquivO ps qs →
    JEquivO (ps.filter (fun p => P p.1)) (qs.filter (fun p => P p.1)) := by
  intro ps
  induction ps with
  | nil =>
    intro qs h
    cases h
    exact .nil
  | cons p t ih =>
    intro qs h
    cases h with
    | cons _ hv hrest =>
      rename_i k v w ts
      by_cases hp : P k = true
      · simp only [List.filter_cons, hp, if_true]
        exact .cons k hv (ih _ hrest)
      · simp only [List.filter_cons, hp, Bool.false_eq_true, if_false]
        exact ih _ hrest

theorem wfObj_filter (P : String → Bool) (l : List (String × Json))
    (h : wfJson (.obj l) = true) :
    wfJson (.obj (l.filter (fun p => P p.1))) = true := by
  rw [show wfJson (Json.obj l) = (nodupKeys (l.map Prod.fst) && wfJsonO l) from rfl,
    Bool.and_eq_true] at h
  rw [show wfJson (Json.obj (l.filter (fun p => P p.1))) =
    (nodupKeys ((l.filter (fun p => P p.1)).map Prod.fst) &&
      wfJsonO (l.filter (fun p => P p.1))) from rfl, Bool.and_eq_true]
  constructor
  · rw [nodupKeys_iff]
    have hsub : List.Sublist (l.filter (fun p => P p.1)) l := List.filter_sublist l
    exact ((hsub.map Prod.fst).nodup) ((nodupKeys_iff _).mp h.1)
  · rw [wfJsonO_mem]
    intro p hp
    exact (wfJsonO_mem l).mp h.2 p (List.mem_of_mem_filter hp)

/-- Claim C5: two event records holding identical key-value pairs whose
mappings (top-level and nested, e.g. the context) were built in different
insertion orders — related by `JEquiv`, with the dict invariant `wfJson` —
receive identical digests from the checksum codec `hash_entry`. -/
theorem C5_hash_insertion_order_independent (e1 e2 : Entry)
    (h : JEquiv (.obj e1) (.obj e2))
    (w1 : wfJson (.obj e1) = true) (w2 : wfJson (.obj e2) = true) :
    hash_entry e1 = hash_entry e2 := by
  cases h with
  | obj ho hperm =>
    rename_i l3
    have hfo := jequivO_filter (fun k => k ≠ "checksum") e1 l3 ho
    have hfp := hperm.filter (fun p : String × Json => p.1 ≠ "checksum")
    have heq : JEquiv (.obj (e1.filter (fun p => p.1 ≠ "checksum")))
        (.obj (e2.filter (fun p => p.1 ≠ "checksum"))) := .obj hfo hfp
    have hwf1 := wfObj_filter (fun k => k ≠ "checksum") e1 w1
    have hwf2 := wfObj_filter (fun k => k ≠ "checksum") e2 w2
    have hs := sortJ_eq_of_jequiv heq hwf1 hwf2
    have hcanon : canon (.obj (e1.filter (fun p => p.1 ≠ "checksum"))) =
        canon (.obj (e2.filter (fun p => p.1 ≠ "checksum"))) := by
      rw [← canon_sortJ (.obj (e1.filter (fun p => p.1 ≠ "checksum"))),
        ← canon_sortJ (.obj (e2.filter (fun p => p.1 ≠ "checksum"))), hs]
    simp only [hash_entry, hcanon]

/-! Witness for C5 -/

/-- Helper for the C5 witness: the two concrete permuted records are
`JEquiv`. -/
theorem C5_witness_equiv :
    JEquiv (.obj [("a", .num 1), ("context", .obj [("x", .num 1), ("y", .num 2)])])
      (.obj [("context", .obj [("y", .num 2), ("x", .num 1)]), ("a", .num 1)]) := by
  have hin : JEquiv (.obj [("x", .num 1), ("y", .num 2)])
      (.obj [("y", .num 2), ("x", .num 1)]) := by
    have ho : JEquivO [("x", .num 1), ("y", .num 2)] [("x", .num 1), ("y", .num 2)] :=
      JEquivO.cons "x" (JEquiv.num 1) (JEquivO.cons "y" (JEquiv.num 2) JEquivO.nil)
    exact JEquiv.obj ho (List.Perm.swap _ _ _)
  have ho2 : JEquivO [("a", .num 1), ("context", .obj [("x", .num 1), ("y", .num 2)])]
      [("a", .num 1), ("context", .obj [("y", .num 2), ("x", .num 1)])] :=
    JEquivO.cons "a" (JEquiv.num 1) (JEquivO.cons "context" hin JEquivO.nil)
  exact JEquiv.obj ho2 (List.Perm.swap _ _ _)

/-- Witness for C5 at two concrete records whose top level and nested
context are permuted. -/
theorem C5_hash_witness :
    wfJson (.obj [("a", .num 1), ("context", .obj [("x", .num 1), ("y", .num 2)])]) = true ∧
    wfJson (.obj [("context", .obj [("y", .num 2), ("x", .num 1)]), ("a", .num 1)]) = true ∧
    hash_entry [("a", .num 1), ("context", .obj [("x", .num 1), ("y", .num 2)])] =
      hash_entry [("context", .obj [("y", .num 2), ("x", .num 1)]), ("a", .num 1)] :=
  ⟨by decide, by decide,
   C5_hash_insertion_order_independent _ _ C5_witness_equiv (by decide) (by decide)⟩

/-! ## Canonical-serialization injectivity machinery (for C4) -/

/-! Char arithmetic helpers -/

theorem toNat_ofNat_small (n : Nat) (h : n < 55296) : (Char.ofNat n).toNat = n := by
  unfold Char.ofNat
  rw [dif_pos (Or.inl h)]
  rfl

theorem char_valid (c : Char) : c.toNat < 55296 ∨ (57343 < c.toNat ∧ c.toNat < 1114112) :=
  c.valid

theorem hexVal_hexDig (d : Nat) (h : d < 16) : hexVal (hexDig d) = some d := by
  by_cases h10 : d < 10
  · have ht : (hexDig d).toNat = 48 + d := by
      simp only [hexDig, if_pos h10]
      exact toNat_ofNat_small (48 + d) (by omega)
    simp only [hexVal, ht]
    rw [if_pos (by omega)]
    congr 1
    omega
  · have ht : (hexDig d).toNat = 87 + d := by
      simp only [hexDig, if_neg h10]
      exact toNat_ofNat_small (87 + d) (by omega)
    simp only [hexVal, ht]
    rw [if_neg (by omega), if_pos (by omega)]
    congr 1
    omega

theorem hex4Val_hex4 (n : Nat) (X : List Char) (h : n < 65536) :
    hex4Val (hex4 n ++ X) = some (n, X) := by
  have e : hex4 n ++ X = hexDig (n / 4096 % 16) :: hexDig (n / 256 % 16) ::
      hexDig (n / 16 % 16) :: hexDig (n % 16) :: X := rfl
  rw [e]
  simp only [hex4Val, hexVal_hexDig (n / 4096 % 16) (by omega),
    hexVal_hexDig (n / 256 % 16) (by omega), hexVal_hexDig (n / 16 % 16) (by omega),
    hexVal_hexDig (n % 16) (by omega)]
  congr 2
  omega

/-! The two readUEsc shapes -/

theorem readUEsc_bmp (n : Nat) (X : List Char) (hn : n < 65536)
    (hns : ¬(55296 ≤ n ∧ n < 56320)) :
    readUEsc (hex4 n ++ X) = some (Char.ofNat n, X) := by
  simp only [readUEsc, hex4Val_hex4 n X hn, if_neg hns]

theorem readUEsc_surrogate (n m : Nat) (X : List Char)
    (hn : n < 65536) (hm : m < 65536)
    (hs1 : 55296 ≤ n ∧ n < 56320) (hs2 : 56320 ≤ m ∧ m < 57344) :
    readUEsc (hex4 n ++ ('\\' :: 'u' :: (hex4 m ++ X))) =
      some (Char.ofNat (65536 + (n - 55296) * 1024 + (m - 56320)), X) := by
  simp only [readUEsc, hex4Val_hex4 n _ hn, if_pos hs1, hex4Val_hex4 m X hm, if_pos hs2]

/-! Symbolic unfolding step for the \u branch -/

theorem readStrBody_u_step (fuel : Nat) (c : Char) (X : List Char) (s2 r : List Char)
    (r2 : List Char) (hX : readStrBody fuel X = some (s2, r))
    (hu : readUEsc r2 = some (c, X)) :
    readStrBody (fuel + 1) ('\\' :: 'u' :: r2) = some (c :: s2, r) := by
  simp only [readStrBody, Char.reduceEq, reduceIte, hu, hX, Option.map]

/-! Round trip for one escaped character -/

theorem readStrBody_escChar (fuel : Nat) (c : Char) (X : List Char) (s2 r : List Char)
    (hX : readStrBody fuel X = some (s2, r)) :
    readStrBody (fuel + 1) (escChar c ++ X) = some (c :: s2, r) := by
  by_cases h1 : c = '"'
  · subst h1
    show readStrBody (fuel + 1) ('\\' :: '"' :: X) = _
    simp only [readStrBody, Char.reduceEq, reduceIte, hX, Option.map]
  by_cases h2 : c = '\\'
  · subst h2
    show readStrBody (fuel + 1) ('\\' :: '\\' :: X) = _
    simp only [readStrBody, Char.reduceEq, reduceIte, hX, Option.map]
  by_cases h3 : 32 ≤ c.toNat ∧ c.toNat ≤ 126
  · have e : escChar c = [c] := by
      simp only [escChar, if_neg h1, if_neg h2, if_pos h3]
    rw [e]
    show readStrBody (fuel + 1) (c :: X) = _
    simp only [readStrBody, if_neg h1, if_neg h2, hX, Option.map]
  by_cases h4 : c = '\x08'
  · subst h4
    show readStrBody (fuel + 1) ('\\' :: 'b' :: X) = _
    simp only [readStrBody, Char.reduceEq, reduceIte, hX, Option.map]
  by_cases h5 : c = '\t'
  · subst h5
    show readStrBody (fuel + 1) ('\\' :: 't' :: X) = _
    simp only [readStrBody, Char.reduceEq, reduceIte, hX, Option.map]
  by_cases h6 : c = '\n'
  · subst h6
    show readStrBody (fuel + 1) ('\\' :: 'n' :: X) = _
    simp only [readStrBody, Char.reduceEq, reduceIte, hX, Option.map]
  by_cases h7 : c = '\x0c'
  · subst h7
    show readStrBody (fuel + 1) ('\\' :: 'f' :: X) = _
    simp only [readStrBody, Char.reduceEq, reduceIte, hX, Option.map]
  by_cases h8 : c = '\r'
  · subst h8
    show readStrBody (fuel + 1) ('\\' :: 'r' :: X) = _
    simp only [readStrBody, Char.reduceEq, reduceIte, hX, Option.map]
  by_cases h9 : c.toNat < 65536
  · have e : escChar c ++ X = '\\' :: 'u' :: (hex4 c.toNat ++ X) := by
      simp only [escChar, if_neg h1, if_neg h2, if_neg h3, if_neg h4, if_neg h5, if_neg h6,
        if_neg h7, if_neg h8, if_pos h9]
      rfl
    rw [e]
    have hns : ¬(55296 ≤ c.toNat ∧ c.toNat < 56320) := by
      rcases char_valid c with h | h <;> omega
    have hu := readUEsc_bmp c.toNat X h9 hns
    rw [Char.ofNat_toNat] at hu
    exact readStrBody_u_step fuel c X s2 r _ hX hu
  · have e1 : escChar c = ('\\' :: 'u' :: hex4 (55296 + (c.toNat - 65536) / 1024)) ++
        ('\\' :: 'u' :: hex4 (56320 + (c.toNat - 65536) % 1024)) := by
      unfold escChar
      rw [if_neg h1, if_neg h2, if_neg h3, if_neg h4, if_neg h5, if_neg h6,
        if_neg h7, if_neg h8, if_neg h9]
    rw [e1, List.append_assoc, List.cons_append, List.cons_append,
      List.cons_append, List.cons_append]
    have hcv : c.toNat < 1114112 := by
      rcases char_valid c with h | h <;> omega
    have hmod := Nat.mod_lt (c.toNat - 65536) (show 0 < 1024 by omega)
    have hdm := Nat.div_add_mod (c.toNat - 65536) 1024
    have hu := readUEsc_surrogate (55296 + (c.toNat - 65536) / 1024)
      (56320 + (c.toNat - 65536) % 1024) X (by omega) (by omega)
      (by constructor <;> omega) (by constructor <;> omega)
    have hcomb : 65536 + (55296 + (c.toNat - 65536) / 1024 - 55296) * 1024 +
        (56320 + (c.toNat - 65536) % 1024 - 56320) = c.toNat := by omega
    rw [hcomb, Char.ofNat_toNat] at hu
    exact readStrBody_u_step fuel c X s2 r _ hX hu

/-! Round trip for escaped strings -/

theorem readStrBody_escStr : ∀ (s : List Char) (fuel : Nat) (r : List Char),
    s.length < fuel → readStrBody fuel (escStr s ++ '"' :: r) = some (s, r) := by
  intro s
  induction s with
  | nil =>
    intro fuel r h
    match fuel, h with
    | fuel + 1, _ =>
      show readStrBody (fuel + 1) ('"' :: r) = some ([], r)
      simp [readStrBody]
  | cons c t ih =>
    intro fuel r h
    match fuel, h with
    | fuel + 1, h =>
      have e : escStr (c :: t) ++ '"' :: r = escChar c ++ (escStr t ++ '"' :: r) := by
        simp [escStr]
      rw [e]
      exact readStrBody_escChar fuel c _ t r (ih fuel r (by simp at h; omega))

/-! Number round trip -/


theorem readDigitsGo_stop (acc : Nat) (r : List Char) (h : noDigitHead r = true) :
    readDigitsGo acc r = (acc, r) := by
  cases r with
  | nil => rfl
  | cons c t =>
    have hc : isPyDigit c = false := by
      simp only [noDigitHead, Bool.not_eq_true'] at h
      exact h
    simp only [readDigitsGo, hc, Bool.false_eq_true, if_false]

theorem natReprF_eq : ∀ m fuel fuel' : Nat, m < fuel → m < fuel' →
    natReprF fuel m = natReprF fuel' m := by
  intro m
  induction m using Nat.strong_induction_on with
  | _ m ih =>
    intro fuel fuel' hf hf'
    match fuel, hf with
    | a + 1, hf =>
    match fuel', hf' with
    | b + 1, hf' =>
    by_cases h10 : m < 10
    · simp only [natReprF, if_pos h10]
    · have hd : m / 10 < m := Nat.div_lt_self (by omega) (by omega)
      simp only [natReprF, if_neg h10]
      rw [ih (m / 10) hd a b (by omega) (by omega)]

theorem isPyDigit_digitChar (m : Nat) (h : m < 10) : isPyDigit (digitChar m) = true := by
  have ht : (digitChar m).toNat = 48 + m := by
    simp only [digitChar]
    exact toNat_ofNat_small (48 + m) (by omega)
  simp only [isPyDigit, Bool.and_eq_true, decide_eq_true_eq]
  omega

theorem digitChar_toNat (m : Nat) (h : m < 10) : (digitChar m).toNat = 48 + m := by
  simp only [digitChar]
  exact toNat_ofNat_small (48 + m) (by omega)

theorem readDigitsGo_natRepr : ∀ m acc : Nat, ∀ r : List Char,
    readDigitsGo acc (natRepr m ++ r) = readDigitsGo (acc * 10 ^ (natRepr m).length + m) r := by
  intro m
  induction m using Nat.strong_induction_on with
  | _ m ih =>
    intro acc r
    by_cases h10 : m < 10
    · have e : natRepr m = [digitChar m] := by
        simp only [natRepr, natReprF, if_pos h10]
      rw [e]
      show readDigitsGo acc (digitChar m :: r) = _
      simp only [readDigitsGo, isPyDigit_digitChar m h10, if_true, digitChar_toNat m h10,
        List.length_cons, List.length_nil]
      congr 1
      simp [pow_one]
    · have hd : m / 10 < m := Nat.div_lt_self (by omega) (by omega)
      have e : natRepr m = natRepr (m / 10) ++ [digitChar (m % 10)] := by
        show natReprF (m + 1) m = _
        simp only [natReprF, if_neg h10]
        rw [natReprF_eq (m / 10) m (m / 10 + 1) (by omega) (by omega)]
        rfl
      rw [e, List.append_assoc, List.cons_append, List.nil_append,
        ih (m / 10) hd acc (digitChar (m % 10) :: r)]
      have hstep : readDigitsGo (acc * 10 ^ (natRepr (m / 10)).length + m / 10)
          (digitChar (m % 10) :: r) =
          readDigitsGo ((acc * 10 ^ (natRepr (m / 10)).length + m / 10) * 10 + (m % 10)) r := by
        simp only [readDigitsGo, isPyDigit_digitChar (m % 10) (by omega), if_true,
          digitChar_toNat (m % 10) (by omega)]
        congr 1
        omega
      rw [hstep]
      congr 1
      rw [List.length_append, List.length_cons, List.length_nil, Nat.zero_add, pow_succ]
      generalize 10 ^ (natRepr (m / 10)).length = P
      rw [Nat.add_mul, ← Nat.mul_assoc]
      generalize acc * P * 10 = Q
      omega

theorem natRepr_head : ∀ m : Nat, ∃ c t, natRepr m = c :: t ∧ isPyDigit c = true := by
  intro m
  induction m using Nat.strong_induction_on with
  | _ m ih =>
    by_cases h10 : m < 10
    · refine ⟨digitChar m, [], ?_, isPyDigit_digitChar m h10⟩
      simp only [natRepr, natReprF, if_pos h10]
    · have hd : m / 10 < m := Nat.div_lt_self (by omega) (by omega)
      obtain ⟨c, t, hct, hdig⟩ := ih (m / 10) hd
      refine ⟨c, t ++ [digitChar (m % 10)], ?_, hdig⟩
      show natReprF (m + 1) m = _
      simp only [natReprF, if_neg h10]
      rw [natReprF_eq (m / 10) m (m / 10 + 1) (by omega) (by omega)]
      show natRepr (m / 10) ++ [digitChar (m % 10)] = _
      rw [hct]
      rfl

theorem readInt_pos_step (c : Char) (t : List Char) (hneg : c ≠ '-') (hd : isPyDigit c = true) :
    readInt (c :: t) = some (((readDigitsGo (c.toNat - 48) t).1 : Int),
      (readDigitsGo (c.toNat - 48) t).2) := by
  simp only [readInt, if_neg hneg, hd, if_true]

theorem readInt_neg_step (c : Char) (t : List Char) (hd : isPyDigit c = true) :
    readInt ('-' :: c :: t) = some (-((readDigitsGo (c.toNat - 48) t).1 : Int),
      (readDigitsGo (c.toNat - 48) t).2) := by
  simp only [readInt, Char.reduceEq, reduceIte, hd, if_true]

theorem pyDigit_ne_misc (c : Char) (h : isPyDigit c = true) :
    c ≠ 'n' ∧ c ≠ 't' ∧ c ≠ 'f' ∧ c ≠ '"' ∧ c ≠ '[' ∧ c ≠ '\x7b' ∧ c ≠ '-' ∧
      c ≠ ']' ∧ c ≠ '\x7d' := by
  refine ⟨?_, ?_, ?_, ?_, ?_, ?_, ?_, ?_, ?_⟩ <;>
    exact fun he => by rw [he] at h; exact absurd h (by decide)

theorem readDigitsGo_digit_step (acc : Nat) (c : Char) (t : List Char) (hd : isPyDigit c = true) :
    readDigitsGo acc (c :: t) = readDigitsGo (acc * 10 + (c.toNat - 48)) t := by
  simp only [readDigitsGo, hd, if_true]

theorem readDigitsGo_natRepr_full (m : Nat) (c : Char) (t : List Char) (r : List Char)
    (hct : natRepr m = c :: t) (hr : noDigitHead r = true) :
    readDigitsGo (c.toNat - 48) (t ++ r) = (m, r) := by
  have h0 : readDigitsGo 0 (natRepr m ++ r) = (m, r) := by
    rw [readDigitsGo_natRepr m 0 r, Nat.zero_mul, Nat.zero_add, readDigitsGo_stop m r hr]
  have hd : isPyDigit c = true := by
    obtain ⟨c2, t2, hct2, hd2⟩ := natRepr_head m
    rw [hct2] at hct
    injection hct with h1 _
    rw [h1] at hd2
    exact hd2
  rw [hct, List.cons_append, readDigitsGo_digit_step 0 c (t ++ r) hd,
    Nat.zero_mul, Nat.zero_add] at h0
  exact h0

theorem readInt_intRepr (n : Int) (r : List Char) (hr : noDigitHead r = true) :
    readInt (intRepr n ++ r) = some (n, r) := by
  obtain ⟨c, t, hct, hd⟩ := natRepr_head n.natAbs
  by_cases hn : n < 0
  · have e : intRepr n ++ r = '-' :: c :: (t ++ r) := by
      simp only [intRepr, if_pos hn, hct]
      rfl
    rw [e, readInt_neg_step c (t ++ r) hd, readDigitsGo_natRepr_full n.natAbs c t r hct hr]
    have : -((n.natAbs : Nat) : Int) = n := by omega
    rw [this]
  · have e : intRepr n ++ r = c :: (t ++ r) := by
      simp only [intRepr, if_neg hn, hct]
      rfl
    have hneg : c ≠ '-' := (pyDigit_ne_misc c hd).2.2.2.2.2.2.1
    rw [e, readInt_pos_step c (t ++ r) hneg hd, readDigitsGo_natRepr_full n.natAbs c t r hct hr]
    have : ((n.natAbs : Nat) : Int) = n := by omega
    rw [this]

/-! Head character of canonical output -/

theorem canon_head (v : Json) : ∃ c t, canon v = c :: t ∧
    (c = 'n' ∨ c = 't' ∨ c = 'f' ∨ c = '"' ∨ c = '[' ∨ c = '\x7b' ∨ c = '-' ∨
      isPyDigit c = true) := by
  cases v with
  | null => exact ⟨'n', _, rfl, Or.inl rfl⟩
  | bool b =>
    cases b with
    | true => exact ⟨'t', _, rfl, Or.inr (Or.inl rfl)⟩
    | false => exact ⟨'f', _, rfl, Or.inr (Or.inr (Or.inl rfl))⟩
  | str s => exact ⟨'"', _, rfl, Or.inr (Or.inr (Or.inr (Or.inl rfl)))⟩
  | arr xs => exact ⟨'[', _, rfl, Or.inr (Or.inr (Or.inr (Or.inr (Or.inl rfl))))⟩
  | obj l => exact ⟨'\x7b', _, rfl, Or.inr (Or.inr (Or.inr (Or.inr (Or.inr (Or.inl rfl)))))⟩
  | num n =>
    obtain ⟨c, t, hct, hd⟩ := natRepr_head n.natAbs
    by_cases hn : n < 0
    · refine ⟨'-', natRepr n.natAbs, ?_, by simp⟩
      show intRepr n = _
      simp only [intRepr, if_pos hn]
    · refine ⟨c, t, ?_, Or.inr (Or.inr (Or.inr (Or.inr (Or.inr (Or.inr (Or.inr hd))))))⟩
      show intRepr n = _
      simp only [intRepr, if_neg hn, hct]

/-! Step lemmas for the value reader -/

theorem readVal_null_step (fuel : Nat) (r : List Char) :
    readVal (fuel + 1) ('n' :: 'u' :: 'l' :: 'l' :: r) = some (.null, r) := rfl

theorem readVal_true_step (fuel : Nat) (r : List Char) :
    readVal (fuel + 1) ('t' :: 'r' :: 'u' :: 'e' :: r) = some (.bool true, r) := rfl

theorem readVal_false_step (fuel : Nat) (r : List Char) :
    readVal (fuel + 1) ('f' :: 'a' :: 'l' :: 's' :: 'e' :: r) = some (.bool false, r) := rfl

theorem readVal_str_step (fuel : Nat) (r : List Char) :
    readVal (fuel + 1) ('"' :: r) =
      (readStrBody fuel r).map (fun p => (.str (String.mk p.1), p.2)) := rfl

theorem readVal_arr_step (fuel : Nat) (r : List Char) :
    readVal (fuel + 1) ('[' :: r) = (readItems fuel r).map (fun p => (.arr p.1, p.2)) := rfl

theorem readVal_obj_step (fuel : Nat) (r : List Char) :
    readVal (fuel + 1) ('\x7b' :: r) = (readMembers fuel r).map (fun p => (.obj p.1, p.2)) := rfl

theorem readVal_default_step (fuel : Nat) (c : Char) (r : List Char)
    (h1 : c ≠ 'n') (h2 : c ≠ 't') (h3 : c ≠ 'f') (h4 : c ≠ '"') (h5 : c ≠ '[')
    (h6 : c ≠ '\x7b') :
    readVal (fuel + 1) (c :: r) = (readInt (c :: r)).map (fun p => (.num p.1, p.2)) := by
  simp only [readVal, if_neg h1, if_neg h2, if_neg h3, if_neg h4, if_neg h5, if_neg h6]

theorem readItems_nil_step (fuel : Nat) (r : List Char) :
    readItems (fuel + 1) (']' :: r) = some ([], r) := rfl

theorem readItems_step_close (fuel : Nat) (c : Char) (r : List Char) (v : Json) (r2 : List Char)
    (hc : c ≠ ']') (hv : readVal fuel (c :: r) = some (v, ']' :: r2)) :
    readItems (fuel + 1) (c :: r) = some ([v], r2) := by
  simp only [readItems, if_neg hc, hv]

theorem readItems_step_comma (fuel : Nat) (c : Char) (r : List Char) (v : Json) (r2 : List Char)
    (hc : c ≠ ']') (hv : readVal fuel (c :: r) = some (v, ',' :: ' ' :: r2)) :
    readItems (fuel + 1) (c :: r) = (readItems fuel r2).map (fun p => (v :: p.1, p.2)) := by
  simp only [readItems, if_neg hc, hv]

theorem readMembers_nil_step (fuel : Nat) (r : List Char) :
    readMembers (fuel + 1) ('\x7d' :: r) = some ([], r) := rfl

theorem readMembers_step_close (fuel : Nat) (r : List Char) (k : List Char) (v : Json)
    (r2 r3 : List Char)
    (hk : readStrBody fuel r = some (k, ':' :: ' ' :: r2))
    (hv : readVal fuel r2 = some (v, '\x7d' :: r3)) :
    readMembers (fuel + 1) ('"' :: r) = some ([(String.mk k, v)], r3) := by
  simp only [readMembers, Char.reduceEq, reduceIte, hk, hv]

theorem readMembers_step_comma (fuel : Nat) (r : List Char) (k : List Char) (v : Json)
    (r2 r3 : List Char)
    (hk : readStrBody fuel r = some (k, ':' :: ' ' :: r2))
    (hv : readVal fuel r2 = some (v, ',' :: ' ' :: r3)) :
    readMembers (fuel + 1) ('"' :: r) =
      (readMembers fuel r3).map (fun p => ((String.mk k, v) :: p.1, p.2)) := by
  simp only [readMembers, Char.reduceEq, reduceIte, hk, hv]

/-! Size and sort helpers -/

theorem jsize_pos (v : Json) : 1 ≤ jsize v := by
  cases v <;> simp [jsize]

theorem jsizeO_eq_sum : ∀ l : List (String × Json),
    jsizeO l = (l.map (fun p => 1 + p.1.data.length + jsize p.2)).sum := by
  intro l
  induction l with
  | nil => rfl
  | cons p t ih =>
    cases p with
    | mk k v =>
      show 1 + k.data.length + jsize v + jsizeO t = _
      rw [ih]
      simp [List.sum_cons]

theorem jsizeO_perm (l l' : List (String × Json)) (h : List.Perm l l') :
    jsizeO l = jsizeO l' := by
  rw [jsizeO_eq_sum, jsizeO_eq_sum]
  exact (h.map (fun p => 1 + p.1.data.length + jsize p.2)).sum_eq

theorem sortJO_sort_comm (l : List (String × Json)) :
    sortJO (insertionSortB pairKeyLE l) = insertionSortB pairKeyLE (sortJO l) := by
  rw [sortJO_eq_map, sortJO_eq_map]
  exact (insertionSortB_mapSnd sortJ l).symm

theorem string_mk_data (s : String) : String.mk s.data = s :=
  string_eq_of_data_eq (String.mk s.data) s rfl

/-! Head of intRepr -/

theorem intRepr_head (n : Int) : ∃ c t, intRepr n = c :: t ∧
    (c = '-' ∨ isPyDigit c = true) := by
  obtain ⟨c, t, hct, hd⟩ := natRepr_head n.natAbs
  by_cases hn : n < 0
  · refine ⟨'-', natRepr n.natAbs, ?_, Or.inl rfl⟩
    simp only [intRepr, if_pos hn]
  · refine ⟨c, t, ?_, Or.inr hd⟩
    simp only [intRepr, if_neg hn, hct]

/-! The round trip: the reader recovers `sortJ v` from `canon v` -/

theorem roundtrip_aux : ∀ fuel : Nat,
    (∀ (v : Json) (r : List Char), noDigitHead r = true → 2 * jsize v < fuel →
      readVal fuel (canon v ++ r) = some (sortJ v, r)) ∧
    (∀ (S : List Json) (r : List Char), 2 * jsizeL S + 2 ≤ fuel →
      readItems fuel (joinComma (canonL S) ++ ']' :: r) = some (sortJL S, r)) ∧
    (∀ (T : List (String × Json)) (r : List Char), 2 * jsizeO T + 2 ≤ fuel →
      readMembers fuel (joinComma ((canonO T).map renderPair) ++ '\x7d' :: r) =
        some (sortJO T, r)) := by
  intro fuel
  induction fuel using Nat.strong_induction_on with
  | _ fuel ih =>
    refine ⟨?_, ?_, ?_⟩
    · intro v r hr hsz
      obtain ⟨f, rfl⟩ : ∃ f, fuel = f + 1 := ⟨fuel - 1, by have := jsize_pos v; omega⟩
      cases v with
      | null => exact readVal_null_step f r
      | bool b =>
        cases b with
        | true => exact readVal_true_step f r
        | false => exact readVal_false_step f r
      | str s =>
        have e : canon (.str s) ++ r = '"' :: (escStr s.data ++ '"' :: r) := by
          show ('"' :: escStr s.data ++ ['"']) ++ r = _
          simp [List.append_assoc]
        rw [e, readVal_str_step f _]
        have hlen : s.data.length < f := by
          have e2 : jsize (.str s) = 1 + s.data.length := rfl
          omega
        rw [readStrBody_escStr s.data f r hlen]
        simp only [Option.map]
        rw [string_mk_data]
        rfl
      | num n =>
        obtain ⟨c, t, hct, hh⟩ := intRepr_head n
        have hne : c ≠ 'n' ∧ c ≠ 't' ∧ c ≠ 'f' ∧ c ≠ '"' ∧ c ≠ '[' ∧ c ≠ '\x7b' := by
          rcases hh with h | h
          · subst h
            exact ⟨by decide, by decide, by decide, by decide, by decide, by decide⟩
          · have hm := pyDigit_ne_misc c h
            exact ⟨hm.1, hm.2.1, hm.2.2.1, hm.2.2.2.1, hm.2.2.2.2.1, hm.2.2.2.2.2.1⟩
        have e : canon (.num n) ++ r = c :: (t ++ r) := by
          show intRepr n ++ r = _
          rw [hct]
          rfl
        rw [e, readVal_default_step f c (t ++ r) hne.1 hne.2.1 hne.2.2.1 hne.2.2.2.1
          hne.2.2.2.2.1 hne.2.2.2.2.2]
        have eb : (c :: (t ++ r) : List Char) = intRepr n ++ r := by
          rw [hct]
          rfl
        rw [eb, readInt_intRepr n r hr]
        rfl
      | arr xs =>
        have e : canon (.arr xs) ++ r = '[' :: (joinComma (canonL xs) ++ ']' :: r) := by
          show ('[' :: (joinComma (canonL xs) ++ [']'])) ++ r = _
          simp [List.append_assoc]
        rw [e, readVal_arr_step f _]
        have e2 : jsize (.arr xs) = 1 + jsizeL xs := rfl
        rw [(ih f (by omega)).2.1 xs r (by omega)]
        rfl
      | obj l =>
        have e : canon (.obj l) ++ r =
            '\x7b' :: (joinComma ((canonO (insertionSortB pairKeyLE l)).map renderPair) ++
              '\x7d' :: r) := by
          show ('\x7b' :: (joinComma ((insertionSortB keyLE (canonO l)).map renderPair) ++
            ['\x7d'])) ++ r = _
          rw [← canonO_sort_comm l]
          simp [List.append_assoc]
        rw [e, readVal_obj_step f _]
        have e2 : jsize (.obj l) = 1 + jsizeO l := rfl
        have hj := jsizeO_perm _ _ (insertionSortB_perm pairKeyLE l)
        rw [(ih f (by omega)).2.2 (insertionSortB pairKeyLE l) r (by omega)]
        show some (.obj (sortJO (insertionSortB pairKeyLE l)), r) = some (sortJ (.obj l), r)
        rw [sortJO_sort_comm]
        rfl
    · intro S r hsz
      obtain ⟨f, rfl⟩ : ∃ f, fuel = f + 1 := ⟨fuel - 1, by omega⟩
      cases S with
      | nil => exact readItems_nil_step f r
      | cons x S2 =>
        obtain ⟨c, t, hct, hh⟩ := canon_head x
        have hcne : c ≠ ']' := by
          rcases hh with h | h | h | h | h | h | h | h
          · subst h; decide
          · subst h; decide
          · subst h; decide
          · subst h; decide
          · subst h; decide
          · subst h; decide
          · subst h; decide
          · exact (pyDigit_ne_misc c h).2.2.2.2.2.2.2.1
        have e3 : jsizeL (x :: S2) = jsize x + jsizeL S2 := rfl
        cases S2 with
        | nil =>
          have e : joinComma (canonL [x]) ++ ']' :: r = c :: (t ++ ']' :: r) := by
            show canon x ++ ']' :: r = _
            rw [hct]
            rfl
          rw [e]
          have hv : readVal f (c :: (t ++ ']' :: r)) = some (sortJ x, ']' :: r) := by
            have hx := (ih f (by omega)).1 x (']' :: r) rfl
              (by have e4 : jsizeL ([] : List Json) = 0 := rfl; omega)
            rw [hct, List.cons_append] at hx
            exact hx
          rw [readItems_step_close f c _ (sortJ x) r hcne hv]
          rfl
        | cons y S3 =>
          have hx1 := jsize_pos x
          have hy := jsize_pos y
          have e5 : jsizeL (y :: S3) = jsize y + jsizeL S3 := rfl
          have e : joinComma (canonL (x :: y :: S3)) ++ ']' :: r =
              c :: (t ++ (',' :: ' ' :: (joinComma (canonL (y :: S3)) ++ ']' :: r))) := by
            show (canon x ++ ',' :: ' ' :: joinComma (canonL (y :: S3))) ++ ']' :: r = _
            rw [hct]
            simp [List.append_assoc]
          rw [e]
          have hv : readVal f (c :: (t ++ (',' :: ' ' ::
              (joinComma (canonL (y :: S3)) ++ ']' :: r)))) =
              some (sortJ x, ',' :: ' ' :: (joinComma (canonL (y :: S3)) ++ ']' :: r)) := by
            have hx := (ih f (by omega)).1 x
              (',' :: ' ' :: (joinComma (canonL (y :: S3)) ++ ']' :: r)) rfl (by omega)
            rw [hct, List.cons_append] at hx
            exact hx
          rw [readItems_step_comma f c _ (sortJ x) _ hcne hv]
          rw [(ih f (by omega)).2.1 (y :: S3) r (by omega)]
          rfl
    · intro T r hsz
      obtain ⟨f, rfl⟩ : ∃ f, fuel = f + 1 := ⟨fuel - 1, by omega⟩
      cases T with
      | nil => exact readMembers_nil_step f r
      | cons p T2 =>
        obtain ⟨k, v⟩ := p
        have e2 : jsizeO ((k, v) :: T2) = 1 + k.data.length + jsize v + jsizeO T2 := rfl
        have hv1 := jsize_pos v
        have hlen : k.data.length < f := by omega
        cases T2 with
        | nil =>
          have e : joinComma ((canonO [(k, v)]).map renderPair) ++ '\x7d' :: r =
              '"' :: (escStr k.data ++ '"' :: (':' :: ' ' :: (canon v ++ '\x7d' :: r))) := by
            show (('"' :: escStr k.data ++ ['"']) ++ ':' :: ' ' :: canon v) ++ '\x7d' :: r = _
            simp [List.append_assoc]
          rw [e]
          have hk : readStrBody f (escStr k.data ++ '"' ::
              (':' :: ' ' :: (canon v ++ '\x7d' :: r))) =
              some (k.data, ':' :: ' ' :: (canon v ++ '\x7d' :: r)) :=
            readStrBody_escStr k.data f _ hlen
          have hv : readVal f (canon v ++ '\x7d' :: r) = some (sortJ v, '\x7d' :: r) :=
            (ih f (by omega)).1 v _ rfl (by omega)
          rw [readMembers_step_close f _ k.data (sortJ v) _ r hk hv]
          rw [string_mk_data]
          rfl
        | cons q T3 =>
          have e : joinComma ((canonO ((k, v) :: q :: T3)).map renderPair) ++ '\x7d' :: r =
              '"' :: (escStr k.data ++ '"' :: (':' :: ' ' :: (canon v ++ ',' :: ' ' ::
                (joinComma ((canonO (q :: T3)).map renderPair) ++ '\x7d' :: r)))) := by
            show ((('"' :: escStr k.data ++ ['"']) ++ ':' :: ' ' :: canon v) ++ ',' :: ' ' ::
              joinComma ((canonO (q :: T3)).map renderPair)) ++ '\x7d' :: r = _
            simp [List.append_assoc]
          rw [e]
          obtain ⟨k2, v2⟩ := q
          have e6 : jsizeO ((k2, v2) :: T3) = 1 + k2.data.length + jsize v2 + jsizeO T3 := rfl
          have hk : readStrBody f (escStr k.data ++ '"' :: (':' :: ' ' :: (canon v ++
              ',' :: ' ' :: (joinComma ((canonO ((k2, v2) :: T3)).map renderPair) ++
                '\x7d' :: r)))) =
              some (k.data, ':' :: ' ' :: (canon v ++ ',' :: ' ' ::
                (joinComma ((canonO ((k2, v2) :: T3)).map renderPair) ++ '\x7d' :: r))) :=
            readStrBody_escStr k.data f _ hlen
          have hv : readVal f (canon v ++ ',' :: ' ' ::
              (joinComma ((canonO ((k2, v2) :: T3)).map renderPair) ++ '\x7d' :: r)) =
              some (sortJ v, ',' :: ' ' ::
                (joinComma ((canonO ((k2, v2) :: T3)).map renderPair) ++ '\x7d' :: r)) :=
            (ih f (by omega)).1 v _ rfl (by omega)
          rw [readMembers_step_comma f _ k.data (sortJ v) _ _ hk hv]
          rw [(ih f (by omega)).2.2 ((k2, v2) :: T3) r (by omega)]
          rw [string_mk_data]
          rfl

/-! canon is injective up to sortJ -/

theorem canon_inj (a b : Json) (h : canon a = canon b) : sortJ a = sortJ b := by
  have ha := (roundtrip_aux (2 * jsize a + 2 * jsize b + 1)).1 a [] rfl (by omega)
  have hb := (roundtrip_aux (2 * jsize a + 2 * jsize b + 1)).1 b [] rfl (by omega)
  rw [h] at ha
  rw [ha] at hb
  injection hb with hb2
  exact congrArg Prod.fst hb2

/-! sortJ-equality implies Python value equality (`JEquiv`) -/

theorem perm_map_exists {α β : Type _} (g : α → β) :
    ∀ (M : List β) (l : List α), (l.map g).Perm M → ∃ l2, l.Perm l2 ∧ l2.map g = M := by
  intro M
  induction M with
  | nil =>
    intro l h
    have h2 : l.map g = [] := h.eq_nil
    have h3 : l = [] := List.map_eq_nil_iff.mp h2
    subst h3
    exact ⟨[], List.Perm.refl [], rfl⟩
  | cons b M2 ih =>
    intro l h
    have hb : b ∈ l.map g := h.mem_iff.mpr (List.mem_cons_self b M2)
    obtain ⟨a, ha, hga⟩ := List.mem_map.mp hb
    obtain ⟨s, t, rfl⟩ := List.append_of_mem ha
    have hmid : ((s ++ a :: t).map g).Perm (g a :: (s.map g ++ t.map g)) := by
      rw [List.map_append, List.map_cons]
      exact List.perm_middle
    have h2 : (g a :: (s.map g ++ t.map g)).Perm (b :: M2) := hmid.symm.trans h
    rw [hga] at h2
    have h3 : (s.map g ++ t.map g).Perm M2 := h2.cons_inv
    rw [← List.map_append] at h3
    obtain ⟨l2, hp2, hm2⟩ := ih (s ++ t) h3
    refine ⟨a :: l2, ?_, ?_⟩
    · exact List.perm_middle.trans (hp2.cons a)
    · rw [List.map_cons, hga, hm2]

theorem sortJ_inj_aux : ∀ n : Nat,
    (∀ a b : Json, jsize a ≤ n → sortJ a = sortJ b → JEquiv a b) ∧
    (∀ xs ys : List Json, jsizeL xs ≤ n → sortJL xs = sortJL ys → JEquivL xs ys) ∧
    (∀ ps qs : List (String × Json), jsizeO ps ≤ n → sortJO ps = sortJO qs →
      JEquivO ps qs) := by
  intro n
  induction n using Nat.strong_induction_on with
  | _ n ih =>
    have h1 : ∀ a b : Json, jsize a ≤ n → sortJ a = sortJ b → JEquiv a b := by
      intro a b ha h
      cases a with
      | null =>
        cases b with
        | null => exact JEquiv.null
        | bool c => exact absurd h (by simp [sortJ])
        | num m => exact absurd h (by simp [sortJ])
        | str s => exact absurd h (by simp [sortJ])
        | arr ys => exact absurd h (by simp [sortJ])
        | obj l2 => exact absurd h (by simp [sortJ])
      | bool c =>
        cases b with
        | bool c2 =>
          have e : (Json.bool c : Json) = .bool c2 := h
          injection e with e2
          rw [e2]
          exact JEquiv.bool c2
        | null => exact absurd h (by simp [sortJ])
        | num m => exact absurd h (by simp [sortJ])
        | str s => exact absurd h (by simp [sortJ])
        | arr ys => exact absurd h (by simp [sortJ])
        | obj l2 => exact absurd h (by simp [sortJ])
      | num m =>
        cases b with
        | num m2 =>
          have e : (Json.num m : Json) = .num m2 := h
          injection e with e2
          rw [e2]
          exact JEquiv.num m2
        | null => exact absurd h (by simp [sortJ])
        | bool c => exact absurd h (by simp [sortJ])
        | str s => exact absurd h (by simp [sortJ])
        | arr ys => exact absurd h (by simp [sortJ])
        | obj l2 => exact absurd h (by simp [sortJ])
      | str s =>
        cases b with
        | str s2 =>
          have e : (Json.str s : Json) = .str s2 := h
          injection e with e2
          rw [e2]
          exact JEquiv.str s2
        | null => exact absurd h (by simp [sortJ])
        | bool c => exact absurd h (by simp [sortJ])
        | num m => exact absurd h (by simp [sortJ])
        | arr ys => exact absurd h (by simp [sortJ])
        | obj l2 => exact absurd h (by simp [sortJ])
      | arr xs =>
        cases b with
        | arr ys =>
          have e : (Json.arr (sortJL xs) : Json) = .arr (sortJL ys) := h
          injection e with e2
          have e3 : jsize (Json.arr xs) = 1 + jsizeL xs := rfl
          exact JEquiv.arr ((ih (n - 1) (by omega)).2.1 xs ys (by omega) e2)
        | null => exact absurd h (by simp [sortJ])
        | bool c => exact absurd h (by simp [sortJ])
        | num m => exact absurd h (by simp [sortJ])
        | str s => exact absurd h (by simp [sortJ])
        | obj l2 => exact absurd h (by simp [sortJ])
      | obj l1 =>
        cases b with
        | obj l2 =>
          have e : (Json.obj (insertionSortB pairKeyLE (sortJO l1)) : Json) =
              .obj (insertionSortB pairKeyLE (sortJO l2)) := h
          injection e with e2
          have hp : (sortJO l1).Perm (sortJO l2) :=
            (insertionSortB_perm pairKeyLE (sortJO l1)).symm.trans
              (e2 ▸ insertionSortB_perm pairKeyLE (sortJO l2))
          rw [sortJO_eq_map, sortJO_eq_map] at hp
          obtain ⟨l2b, hperm, hmap⟩ :=
            perm_map_exists (fun p => (p.1, sortJ p.2)) (l1.map (fun p => (p.1, sortJ p.2)))
              l2 hp.symm
          have e3 : jsize (Json.obj l1) = 1 + jsizeO l1 := rfl
          have ho : JEquivO l1 l2b := by
            refine (ih (n - 1) (by omega)).2.2 l1 l2b (by omega) ?_
            rw [sortJO_eq_map, sortJO_eq_map, hmap]
          exact JEquiv.obj ho hperm.symm
        | null => exact absurd h (by simp [sortJ])
        | bool c => exact absurd h (by simp [sortJ])
        | num m => exact absurd h (by simp [sortJ])
        | str s => exact absurd h (by simp [sortJ])
        | arr ys => exact absurd h (by simp [sortJ])
    have h2 : ∀ xs ys : List Json, jsizeL xs ≤ n → sortJL xs = sortJL ys → JEquivL xs ys := by
      intro xs
      induction xs with
      | nil =>
        intro ys _ h
        cases ys with
        | nil => exact JEquivL.nil
        | cons y t => exact absurd h (by simp [sortJL])
      | cons x t iht =>
        intro ys hsz h
        cases ys with
        | nil => exact absurd h (by simp [sortJL])
        | cons y t2 =>
          have e : sortJ x :: sortJL t = sortJ y :: sortJL t2 := h
          injection e with e1 e2
          have e3 : jsizeL (x :: t) = jsize x + jsizeL t := rfl
          have hx := jsize_pos x
          exact JEquivL.cons (h1 x y (by omega) e1) (iht t2 (by omega) e2)
    have h3 : ∀ ps qs : List (String × Json), jsizeO ps ≤ n → sortJO ps = sortJO qs →
        JEquivO ps qs := by
      intro ps
      induction ps with
      | nil =>
        intro qs _ h
        cases qs with
        | nil => exact JEquivO.nil
        | cons q t =>
          obtain ⟨k2, v2⟩ := q
          exact absurd h (by simp [sortJO])
      | cons p t iht =>
        intro qs hsz h
        obtain ⟨k, v⟩ := p
        cases qs with
        | nil => exact absurd h (by simp [sortJO])
        | cons q t2 =>
          obtain ⟨k2, v2⟩ := q
          have e : (k, sortJ v) :: sortJO t = (k2, sortJ v2) :: sortJO t2 := h
          injection e with e1 e2
          injection e1 with e1a e1b
          have e3 : jsizeO ((k, v) :: t) = 1 + k.data.length + jsize v + jsizeO t := rfl
          have hv := jsize_pos v
          subst e1a
          exact JEquivO.cons k (h1 v v2 (by omega) e1b) (iht t2 (by omega) e2)
    exact ⟨h1, h2, h3⟩

theorem jequiv_of_sortJ_eq {a b : Json} (h : sortJ a = sortJ b) : JEquiv a b :=
  (sortJ_inj_aux (jsize a)).1 a b le_rfl h

/-! ## Claim C4 -/

/-- Claim C4: for every record produced by the journal append (`log_thought`)
and every record obtained from it by changing the value of any field other
than the checksum to a genuinely different value (different as a Python
value, i.e. not `JEquiv`; replacing the whole `context` object covers a
changed context sub-field), `verify_integrity` on the mutated record returns
`false`.  The hypothesis `hnc` makes the required collision-freeness of
SHA-256 on this pair of serializations explicit: equal digests for the two
canonical serializations only when the serializations are equal. -/
theorem C4_mutated_field_fails_verification (st : EngineState)
    (now stamp ty content : String) (ctx : Option Entry) (sig : Bool)
    (o : Entry) (f : String) (v' : Json)
    (ho : o = (log_thought st now stamp ty content ctx sig).1)
    (hf : f ≠ "checksum")
    (hmem : dictContains f o = true)
    (hchanged : ¬ JEquiv ((dictLookup f o).getD .null) v')
    (hnc : hash_entry (dictSet o f v') = hash_entry o →
      canon (.obj ((dictSet o f v').filter (fun p => p.1 ≠ "checksum"))) =
        canon (.obj (o.filter (fun p => p.1 ≠ "checksum")))) :
    verify_integrity (dictSet o f v') = false := by
  subst ho
  have hO : (log_thought st now stamp ty content ctx sig).1 =
      [("timestamp", .str now),
      ("session_id", .str st.session_id),
      ("type", .str ty),
      ("content", .str content),
      ("context", .obj (ctx.getD [])),
      ("signal_created", .bool false),
      ("checksum", .str (hash_entry
        [("timestamp", .str now),
        ("session_id", .str st.session_id),
        ("type", .str ty),
        ("content", .str content),
        ("context", .obj (ctx.getD [])),
        ("signal_created", .bool false)]))] := by
    cases sig <;> rfl
  rw [hO] at hmem hchanged hnc ⊢
  by_cases h1 : f = "timestamp"
  · subst h1
    have hM : dictSet
        [("timestamp", .str now),
        ("session_id", .str st.session_id),
        ("type", .str ty),
        ("content", .str content),
        ("context", .obj (ctx.getD [])),
        ("signal_created", .bool false),
        ("checksum", .str (hash_entry
          [("timestamp", .str now),
          ("session_id", .str st.session_id),
          ("type", .str ty),
          ("content", .str content),
          ("context", .obj (ctx.getD [])),
          ("signal_created", .bool false)]))]
        "timestamp" v' =
        [("timestamp", v'),
        ("session_id", .str st.session_id),
        ("type", .str ty),
        ("content", .str content),
        ("context", .obj (ctx.getD [])),
        ("signal_created", .bool false),
        ("checksum", .str (hash_entry
          [("timestamp", .str now),
          ("session_id", .str st.session_id),
          ("type", .str ty),
          ("content", .str content),
          ("context", .obj (ctx.getD [])),
          ("signal_created", .bool false)]))] := rfl
    rw [hM] at hnc ⊢
    show (hash_entry
        [("timestamp", .str now),
        ("session_id", .str st.session_id),
        ("type", .str ty),
        ("content", .str content),
        ("context", .obj (ctx.getD [])),
        ("signal_created", .bool false)] ==
      hash_entry
        [("timestamp", v'),
        ("session_id", .str st.session_id),
        ("type", .str ty),
        ("content", .str content),
        ("context", .obj (ctx.getD [])),
        ("signal_created", .bool false),
        ("checksum", .str (hash_entry
          [("timestamp", .str now),
          ("session_id", .str st.session_id),
          ("type", .str ty),
          ("content", .str content),
          ("context", .obj (ctx.getD [])),
          ("signal_created", .bool false)]))]) = false
    rw [beq_eq_false_iff_ne]
    intro hEq
    have hcan := hnc (by exact hEq.symm)
    have hs := canon_inj _ _ hcan
    have e1 : sortJ (.obj
        (([("timestamp", v'),
         ("session_id", .str st.session_id),
         ("type", .str ty),
         ("content", .str content),
         ("context", .obj (ctx.getD [])),
         ("signal_created", .bool false),
         ("checksum", .str (hash_entry
           [("timestamp", .str now),
           ("session_id", .str st.session_id),
           ("type", .str ty),
           ("content", .str content),
           ("context", .obj (ctx.getD [])),
           ("signal_created", .bool false)]))]).filter (fun p => p.1 ≠ "checksum"))) =
        .obj [("content", sortJ (.str content)),
             ("context", sortJ (.obj (ctx.getD []))),
             ("session_id", sortJ (.str st.session_id)),
             ("signal_created", sortJ (.bool false)),
             ("timestamp", sortJ v'),
             ("type", sortJ (.str ty))] := rfl
    have e2 : sortJ (.obj
        (([("timestamp", .str now),
         ("session_id", .str st.session_id),
         ("type", .str ty),
         ("content", .str content),
         ("context", .obj (ctx.getD [])),
         ("signal_created", .bool false),
         ("checksum", .str (hash_entry
           [("timestamp", .str now),
           ("session_id", .str st.session_id),
           ("type", .str ty),
           ("content", .str content),
           ("context", .obj (ctx.getD [])),
           ("signal_created", .bool false)]))]).filter (fun p => p.1 ≠ "checksum"))) =
        .obj [("content", sortJ (.str content)),
             ("context", sortJ (.obj (ctx.getD []))),
             ("session_id", sortJ (.str st.session_id)),
             ("signal_created", sortJ (.bool false)),
             ("timestamp", sortJ (.str now)),
             ("type", sortJ (.str ty))] := rfl
    rw [e1, e2] at hs
    simp only [Json.obj.injEq, List.cons.injEq, Prod.mk.injEq, and_true, true_and] at hs
    exact hchanged (jequiv_of_sortJ_eq hs.symm)
  by_cases h2 : f = "session_id"
  · subst h2
    have hM : dictSet
        [("timestamp", .str now),
        ("session_id", .str st.session_id),
        ("type", .str ty),
        ("content", .str content),
        ("context", .obj (ctx.getD [])),
        ("signal_created", .bool false),
        ("checksum", .str (hash_entry
          [("timestamp", .str now),
          ("session_id", .str st.session_id),
          ("type", .str ty),
          ("content", .str content),
          ("context", .obj (ctx.getD [])),
          ("signal_created", .bool false)]))]
        "session_id" v' =
        [("timestamp", .str now),
        ("session_id", v'),
        ("type", .str ty),
        ("content", .str content),
        ("context", .obj (ctx.getD [])),
        ("signal_created", .bool false),
        ("checksum", .str (hash_entry
          [("timestamp", .str now),
          ("session_id", .str st.session_id),
          ("type", .str ty),
          ("content", .str content),
          ("context", .obj (ctx.getD [])),
          ("signal_created", .bool false)]))] := rfl
    rw [hM] at hnc ⊢
    show (hash_entry
        [("timestamp", .str now),
        ("session_id", .str st.session_id),
        ("type", .str ty),
        ("content", .str content),
        ("context", .obj (ctx.getD [])),
        ("signal_created", .bool false)] ==
      hash_entry
        [("timestamp", .str now),
        ("session_id", v'),
        ("type", .str ty),
        ("content", .str content),
        ("context", .obj (ctx.getD [])),
        ("signal_created", .bool false),
        ("checksum", .str (hash_entry
          [("timestamp", .str now),
          ("session_id", .str st.session_id),
          ("type", .str ty),
          ("content", .str content),
          ("context", .obj (ctx.getD [])),
          ("signal_created", .bool false)]))]) = false
    rw [beq_eq_false_iff_ne]
    intro hEq
    have hcan := hnc (by exact hEq.symm)
    have hs := canon_inj _ _ hcan
    have e1 : sortJ (.obj
        (([("timestamp", .str now),
         ("session_id", v'),
         ("type", .str ty),
         ("content", .str content),
         ("context", .obj (ctx.getD [])),
         ("signal_created", .bool false),
         ("checksum", .str (hash_entry
           [("timestamp", .str now),
           ("session_id", .str st.session_id),
           ("type", .str ty),
           ("content", .str content),
           ("context", .obj (ctx.getD [])),
           ("signal_created", .bool false)]))]).filter (fun p => p.1 ≠ "checksum"))) =
        .obj [("content", sortJ (.str content)),
             ("context", sortJ (.obj (ctx.getD []))),
             ("session_id", sortJ v'),
             ("signal_created", sortJ (.bool false)),
             ("timestamp", sortJ (.str now)),
             ("type", sortJ (.str ty))] := rfl
    have e2 : sortJ (.obj
        (([("timestamp", .str now),
         ("session_id", .str st.session_id),
         ("type", .str ty),
         ("content", .str content),
         ("context", .obj (ctx.getD [])),
         ("signal_created", .bool false),
         ("checksum", .str (hash_entry
           [("timestamp", .str now),
           ("session_id", .str st.session_id),
           ("type", .str ty),
           ("content", .str content),
           ("context", .obj (ctx.getD [])),
           ("signal_created", .bool false)]))]).filter (fun p => p.1 ≠ "checksum"))) =
        .obj [("content", sortJ (.str content)),
             ("context", sortJ (.obj (ctx.getD []))),
             ("session_id", sortJ (.str st.session_id)),
             ("signal_created", sortJ (.bool false)),
             ("timestamp", sortJ (.str now)),
             ("type", sortJ (.str ty))] := rfl
    rw [e1, e2] at hs
    simp only [Json.obj.injEq, List.cons.injEq, Prod.mk.injEq, and_true, true_and] at hs
    exact hchanged (jequiv_of_sortJ_eq hs.symm)
  by_cases h3 : f = "type"
  · subst h3
    have hM : dictSet
        [("timestamp", .str now),
        ("session_id", .str st.session_id),
        ("type", .str ty),
        ("content", .str content),
        ("context", .obj (ctx.getD [])),
        ("signal_created", .bool false),
        ("checksum", .str (hash_entry
          [("timestamp", .str now),
          ("session_id", .str st.session_id),
          ("type", .str ty),
          ("content", .str content),
          ("context", .obj (ctx.getD [])),
          ("signal_created", .bool false)]))]
        "type" v' =
        [("timestamp", .str now),
        ("session_id", .str st.session_id),
        ("type", v'),
        ("content", .str content),
        ("context", .obj (ctx.getD [])),
        ("signal_created", .bool false),
        ("checksum", .str (hash_entry
          [("timestamp", .str now),
          ("session_id", .str st.session_id),
          ("type", .str ty),
          ("content", .str content),
          ("context", .obj (ctx.getD [])),
          ("signal_created", .bool false)]))] := rfl
    rw [hM] at hnc ⊢
    show (hash_entry
        [("timestamp", .str now),
        ("session_id", .str st.session_id),
        ("type", .str ty),
        ("content", .str content),
        ("context", .obj (ctx.getD [])),
        ("signal_created", .bool false)] ==
      hash_entry
        [("timestamp", .str now),
        ("session_id", .str st.session_id),
        ("type", v'),
        ("content", .str content),
        ("context", .obj (ctx.getD [])),
        ("signal_created", .bool false),
        ("checksum", .str (hash_entry
          [("timestamp", .str now),
          ("session_id", .str st.session_id),
          ("type", .str ty),
          ("content", .str content),
          ("context", .obj (ctx.getD [])),
          ("signal_created", .bool false)]))]) = false
    rw [beq_eq_false_iff_ne]
    intro hEq
    have hcan := hnc (by exact hEq.symm)
    have hs := canon_inj _ _ hcan
    have e1 : sortJ (.obj
        (([("timestamp", .str now),
         ("session_id", .str st.session_id),
         ("type", v'),
         ("content", .str content),
         ("context", .obj (ctx.getD [])),
         ("signal_created", .bool false),
         ("checksum", .str (hash_entry
           [("timestamp", .str now),
           ("session_id", .str st.session_id),
           ("type", .str ty),
           ("content", .str content),
           ("context", .obj (ctx.getD [])),
           ("signal_created", .bool false)]))]).filter (fun p => p.1 ≠ "checksum"))) =
        .obj [("content", sortJ (.str content)),
             ("context", sortJ (.obj (ctx.getD []))),
             ("session_id", sortJ (.str st.session_id)),
             ("signal_created", sortJ (.bool false)),
             ("timestamp", sortJ (.str now)),
             ("type", sortJ v')] := rfl
    have e2 : sortJ (.obj
        (([("timestamp", .str now),
         ("session_id", .str st.session_id),
         ("type", .str ty),
         ("content", .str content),
         ("context", .obj (ctx.getD [])),
         ("signal_created", .bool false),
         ("checksum", .str (hash_entry
           [("timestamp", .str now),
           ("session_id", .str st.session_id),
           ("type", .str ty),
           ("content", .str content),
           ("context", .obj (ctx.getD [])),
           ("signal_created", .bool false)]))]).filter (fun p => p.1 ≠ "checksum"))) =
        .obj [("content", sortJ (.str content)),
             ("context", sortJ (.obj (ctx.getD []))),
             ("session_id", sortJ (.str st.session_id)),
             ("signal_created", sortJ (.bool false)),
             ("timestamp", sortJ (.str now)),
             ("type", sortJ (.str ty))] := rfl
    rw [e1, e2] at hs
    simp only [Json.obj.injEq, List.cons.injEq, Prod.mk.injEq, and_true, true_and] at hs
    exact hchanged (jequiv_of_sortJ_eq hs.symm)
  by_cases h4 : f = "content"
  · subst h4
    have hM : dictSet
        [("timestamp", .str now),
        ("session_id", .str st.session_id),
        ("type", .str ty),
        ("content", .str content),
        ("context", .obj (ctx.getD [])),
        ("signal_created", .bool false),
        ("checksum", .str (hash_entry
          [("timestamp", .str now),
          ("session_id", .str st.session_id),
          ("type", .str ty),
          ("content", .str content),
          ("context", .obj (ctx.getD [])),
          ("signal_created", .bool false)]))]
        "content" v' =
        [("timestamp", .str now),
        ("session_id", .str st.session_id),
        ("type", .str ty),
        ("content", v'),
        ("context", .obj (ctx.getD [])),
        ("signal_created", .bool false),
        ("checksum", .str (hash_entry
          [("timestamp", .str now),
          ("session_id", .str st.session_id),
          ("type", .str ty),
          ("content", .str content),
          ("context", .obj (ctx.getD [])),
          ("signal_created", .bool false)]))] := rfl
    rw [hM] at hnc ⊢
    show (hash_entry
        [("timestamp", .str now),
        ("session_id", .str st.session_id),
        ("type", .str ty),
        ("content", .str content),
        ("context", .obj (ctx.getD [])),
        ("signal_created", .bool false)] ==
      hash_entry
        [("timestamp", .str now),
        ("session_id", .str st.session_id),
        ("type", .str ty),
        ("content", v'),
        ("context", .obj (ctx.getD [])),
        ("signal_created", .bool false),
        ("checksum", .str (hash_entry
          [("timestamp", .str now),
          ("session_id", .str st.session_id),
          ("type", .str ty),
          ("content", .str content),
          ("context", .obj (ctx.getD [])),
          ("signal_created", .bool false)]))]) = false
    rw [beq_eq_false_iff_ne]
    intro hEq
    have hcan := hnc (by exact hEq.symm)
    have hs := canon_inj _ _ hcan
    have e1 : sortJ (.obj
        (([("timestamp", .str now),
         ("session_id", .str st.session_id),
         ("type", .str ty),
         ("content", v'),
         ("context", .obj (ctx.getD [])),
         ("signal_created", .bool false),
         ("checksum", .str (hash_entry
           [("timestamp", .str now),
           ("session_id", .str st.session_id),
           ("type", .str ty),
           ("content", .str content),
           ("context", .obj (ctx.getD [])),
           ("signal_created", .bool false)]))]).filter (fun p => p.1 ≠ "checksum"))) =
        .obj [("content", sortJ v'),
             ("context", sortJ (.obj (ctx.getD []))),
             ("session_id", sortJ (.str st.session_id)),
             ("signal_created", sortJ (.bool false)),
             ("timestamp", sortJ (.str now)),
             ("type", sortJ (.str ty))] := rfl
    have e2 : sortJ (.obj
        (([("timestamp", .str now),
         ("session_id", .str st.session_id),
         ("type", .str ty),
         ("content", .str content),
         ("context", .obj (ctx.getD [])),
         ("signal_created", .bool false),
         ("checksum", .str (hash_entry
           [("timestamp", .str now),
           ("session_id", .str st.session_id),
           ("type", .str ty),
           ("content", .str content),
           ("context", .obj (ctx.getD [])),
           ("signal_created", .bool false)]))]).filter (fun p => p.1 ≠ "checksum"))) =
        .obj [("content", sortJ (.str content)),
             ("context", sortJ (.obj (ctx.getD []))),
             ("session_id", sortJ (.str st.session_id)),
             ("signal_created", sortJ (.bool false)),
             ("timestamp", sortJ (.str now)),
             ("type", sortJ (.str ty))] := rfl
    rw [e1, e2] at hs
    simp only [Json.obj.injEq, List.cons.injEq, Prod.mk.injEq, and_true, true_and] at hs
    exact hchanged (jequiv_of_sortJ_eq hs.symm)
  by_cases h5 : f = "context"
  · subst h5
    have hM : dictSet
        [("timestamp", .str now),
        ("session_id", .str st.session_id),
        ("type", .str ty),
        ("content", .str content),
        ("context", .obj (ctx.getD [])),
        ("signal_created", .bool false),
        ("checksum", .str (hash_entry
          [("timestamp", .str now),
          ("session_id", .str st.session_id),
          ("type", .str ty),
          ("content", .str content),
          ("context", .obj (ctx.getD [])),
          ("signal_created", .bool false)]))]
        "context" v' =
        [("timestamp", .str now),
        ("session_id", .str st.session_id),
        ("type", .str ty),
        ("content", .str content),
        ("context", v'),
        ("signal_created", .bool false),
        ("checksum", .str (hash_entry
          [("timestamp", .str now),
          ("session_id", .str st.session_id),
          ("type", .str ty),
          ("content", .str content),
          ("context", .obj (ctx.getD [])),
          ("signal_created", .bool false)]))] := rfl
    rw [hM] at hnc ⊢
    show (hash_entry
        [("timestamp", .str now),
        ("session_id", .str st.session_id),
        ("type", .str ty),
        ("content", .str content),
        ("context", .obj (ctx.getD [])),
        ("signal_created", .bool false)] ==
      hash_entry
        [("timestamp", .str now),
        ("session_id", .str st.session_id),
        ("type", .str ty),
        ("content", .str content),
        ("context", v'),
        ("signal_created", .bool false),
        ("checksum", .str (hash_entry
          [("timestamp", .str now),
          ("session_id", .str st.session_id),
          ("type", .str ty),
          ("content", .str content),
          ("context", .obj (ctx.getD [])),
          ("signal_created", .bool false)]))]) = false
    rw [beq_eq_false_iff_ne]
    intro hEq
    have hcan := hnc (by exact hEq.symm)
    have hs := canon_inj _ _ hcan
    have e1 : sortJ (.obj
        (([("timestamp", .str now),
         ("session_id", .str st.session_id),
         ("type", .str ty),
         ("content", .str content),
         ("context", v'),
         ("signal_created", .bool false),
         ("checksum", .str (hash_entry
           [("timestamp", .str now),
           ("session_id", .str st.session_id),
           ("type", .str ty),
           ("content", .str content),
           ("context", .obj (ctx.getD [])),
           ("signal_created", .bool false)]))]).filter (fun p => p.1 ≠ "checksum"))) =
        .obj [("content", sortJ (.str content)),
             ("context", sortJ v'),
             ("session_id", sortJ (.str st.session_id)),
             ("signal_created", sortJ (.bool false)),
             ("timestamp", sortJ (.str now)),
             ("type", sortJ (.str ty))] := rfl
    have e2 : sortJ (.obj
        (([("timestamp", .str now),
         ("session_id", .str st.session_id),
         ("type", .str ty),
         ("content", .str content),
         ("context", .obj (ctx.getD [])),
         ("signal_created", .bool false),
         ("checksum", .str (hash_entry
           [("timestamp", .str now),
           ("session_id", .str st.session_id),
           ("type", .str ty),
           ("content", .str content),
           ("context", .obj (ctx.getD [])),
           ("signal_created", .bool false)]))]).filter (fun p => p.1 ≠ "checksum"))) =
        .obj [("content", sortJ (.str content)),
             ("context", sortJ (.obj (ctx.getD []))),
             ("session_id", sortJ (.str st.session_id)),
             ("signal_created", sortJ (.bool false)),
             ("timestamp", sortJ (.str now)),
             ("type", sortJ (.str ty))] := rfl
    rw [e1, e2] at hs
    simp only [Json.obj.injEq, List.cons.injEq, Prod.mk.injEq, and_true, true_and] at hs
    exact hchanged (jequiv_of_sortJ_eq hs.symm)
  by_cases h6 : f = "signal_created"
  · subst h6
    have hM : dictSet
        [("timestamp", .str now),
        ("session_id", .str st.session_id),
        ("type", .str ty),
        ("content", .str content),
        ("context", .obj (ctx.getD [])),
        ("signal_created", .bool false),
        ("checksum", .str (hash_entry
          [("timestamp", .str now),
          ("session_id", .str st.session_id),
          ("type", .str ty),
          ("content", .str content),
          ("context", .obj (ctx.getD [])),
          ("signal_created", .bool false)]))]
        "signal_created" v' =
        [("timestamp", .str now),
        ("session_id", .str st.session_id),
        ("type", .str ty),
        ("content", .str content),
        ("context", .obj (ctx.getD [])),
        ("signal_created", v'),
        ("checksum", .str (hash_entry
          [("timestamp", .str now),
          ("session_id", .str st.session_id),
          ("type", .str ty),
          ("content", .str content),
          ("context", .obj (ctx.getD [])),
          ("signal_created", .bool false)]))] := rfl
    rw [hM] at hnc ⊢
    show (hash_entry
        [("timestamp", .str now),
        ("session_id", .str st.session_id),
        ("type", .str ty),
        ("content", .str content),
        ("context", .obj (ctx.getD [])),
        ("signal_created", .bool false)] ==
      hash_entry
        [("timestamp", .str now),
        ("session_id", .str st.session_id),
        ("type", .str ty),
        ("content", .str content),
        ("context", .obj (ctx.getD [])),
        ("signal_created", v'),
        ("checksum", .str (hash_entry
          [("timestamp", .str now),
          ("session_id", .str st.session_id),
          ("type", .str ty),
          ("content", .str content),
          ("context", .obj (ctx.getD [])),
          ("signal_created", .bool false)]))]) = false
    rw [beq_eq_false_iff_ne]
    intro hEq
    have hcan := hnc (by exact hEq.symm)
    have hs := canon_inj _ _ hcan
    have e1 : sortJ (.obj
        (([("timestamp", .str now),
         ("session_id", .str st.session_id),
         ("type", .str ty),
         ("content", .str content),
         ("context", .obj (ctx.getD [])),
         ("signal_created", v'),
         ("checksum", .str (hash_entry
           [("timestamp", .str now),
           ("session_id", .str st.session_id),
           ("type", .str ty),
           ("content", .str content),
           ("context", .obj (ctx.getD [])),
           ("signal_created", .bool false)]))]).filter (fun p => p.1 ≠ "checksum"))) =
        .obj [("content", sortJ (.str content)),
             ("context", sortJ (.obj (ctx.getD []))),
             ("session_id", sortJ (.str st.session_id)),
             ("signal_created", sortJ v'),
             ("timestamp", sortJ (.str now)),
             ("type", sortJ (.str ty))] := rfl
    have e2 : sortJ (.obj
        (([("timestamp", .str now),
         ("session_id", .str st.session_id),
         ("type", .str ty),
         ("content", .str content),
         ("context", .obj (ctx.getD [])),
         ("signal_created", .bool false),
         ("checksum", .str (hash_entry
           [("timestamp", .str now),
           ("session_id", .str st.session_id),
           ("type", .str ty),
           ("content", .str content),
           ("context", .obj (ctx.getD [])),
           ("signal_created", .bool false)]))]).filter (fun p => p.1 ≠ "checksum"))) =
        .obj [("content", sortJ (.str content)),
             ("context", sortJ (.obj (ctx.getD []))),
             ("session_id", sortJ (.str st.session_id)),
             ("signal_created", sortJ (.bool false)),
             ("timestamp", sortJ (.str now)),
             ("type", sortJ (.str ty))] := rfl
    rw [e1, e2] at hs
    simp only [Json.obj.injEq, List.cons.injEq, Prod.mk.injEq, and_true, true_and] at hs
    exact hchanged (jequiv_of_sortJ_eq hs.symm)
  exfalso
  have e : dictLookup f
      [("timestamp", .str now),
      ("session_id", .str st.session_id),
      ("type", .str ty),
      ("content", .str content),
      ("context", .obj (ctx.getD [])),
      ("signal_created", .bool false),
      ("checksum", .str (hash_entry
        [("timestamp", .str now),
        ("session_id", .str st.session_id),
        ("type", .str ty),
        ("content", .str content),
        ("context", .obj (ctx.getD [])),
        ("signal_created", .bool false)]))] = none := by
    have n1 : ("timestamp" : String) ≠ f := fun h => h1 h.symm
    have n2 : ("session_id" : String) ≠ f := fun h => h2 h.symm
    have n3 : ("type" : String) ≠ f := fun h => h3 h.symm
    have n4 : ("content" : String) ≠ f := fun h => h4 h.symm
    have n5 : ("context" : String) ≠ f := fun h => h5 h.symm
    have n6 : ("signal_created" : String) ≠ f := fun h => h6 h.symm
    have n7 : ("checksum" : String) ≠ f := fun h => hf h.symm
    simp only [dictLookup, if_neg n1, if_neg n2, if_neg n3, if_neg n4, if_neg n5, if_neg n6,
      if_neg n7]
  rw [dictContains, e] at hmem
  exact absurd hmem (by decide)

/-- Witness for C4 at a concrete record: the `content` field is replaced by
a value of a different type; the two digests are computed concretely and
differ, so verification fails. -/
theorem C4_mutated_field_fails_verification_witness :
    ("content" : String) ≠ "checksum" ∧
    dictContains "content" (log_thought sampleState "T" "S" "a" "b" none false).1 = true ∧
    verify_integrity (dictSet (log_thought sampleState "T" "S" "a" "b" none false).1
      "content" (.num 0)) = false :=
  ⟨by decide, by decide,
   C4_mutated_field_fails_verification sampleState "T" "S" "a" "b" none false _
     "content" (.num 0) rfl (by decide) (by decide) (fun h => nomatch h) (by decide)⟩
